import Mathlib

/-!
Shallow embedding of the citation and cross-reference resolution engine of a
Slovenian statutory-corpus server, together with proofs about the claims of
its specification.

Dates are modelled as ISO `YYYY-MM-DD` strings; on such strings the
JavaScript string comparison used by the source and SQLite TEXT comparison
both coincide with lexicographic order on characters, which is the `String`
order used here.  Regular-expression matching in the source is embedded as
hand-compiled matcher functions over `List Char`, translating each pattern
with its JavaScript semantics (ordered alternation with backtracking, greedy
quantifiers, case-insensitive flags via a case-folding map).  The current
wall-clock date read by the source (`new Date()`) is threaded as an explicit
`today` parameter.
-/

namespace SlovLaw

/-- JavaScript whitespace test (`\s`) restricted to the code points that can
occur in the inputs of this development. -/
def isWsC (c : Char) : Bool :=
  c.toNat = 9 || c.toNat = 10 || c.toNat = 11 || c.toNat = 12 ||
  c.toNat = 13 || c.toNat = 32 || c.toNat = 160

/-- ASCII digit test. -/
def isDigitC (c : Char) : Bool := 48 ≤ c.toNat && c.toNat ≤ 57

/-- ASCII word-character test (`\w` = `[A-Za-z0-9_]`). -/
def isWordC (c : Char) : Bool :=
  (65 ≤ c.toNat && c.toNat ≤ 90) || (97 ≤ c.toNat && c.toNat ≤ 122) ||
  (48 ≤ c.toNat && c.toNat ≤ 57) || c.toNat = 95

/-- Case-folding map used to embed the `i` regex flag and
`String.prototype.toLowerCase`: ASCII letters plus the uppercase Slovene
letters Č, Š, Ž occurring in the patterns of the source. -/
def charLower (c : Char) : Char :=
  if 65 ≤ c.toNat && c.toNat ≤ 90 then Char.ofNat (c.toNat + 32)
  else if c.toNat = 268 then 'č'
  else if c.toNat = 352 then 'š'
  else if c.toNat = 381 then 'ž'
  else c

/-- Lowercase a string (embedding of `toLowerCase` on the inputs in scope). -/
def lowerStr (s : String) : String := String.mk (s.toList.map charLower)

/-- `String.prototype.trim` on character lists. -/
def jsTrimL (cs : List Char) : List Char :=
  ((cs.dropWhile isWsC).reverse.dropWhile isWsC).reverse

/-- `String.prototype.trim`. -/
def jsTrim (s : String) : String := String.mk (jsTrimL s.toList)

/-- Numeric value of a digit list (`parseInt(_, 10)` on an all-digit capture). -/
def natOfDigits (cs : List Char) : Nat :=
  cs.foldl (fun acc c => acc * 10 + (c.toNat - 48)) 0

/-- Lexicographic order on character lists by code unit: the abstract
relational comparison of JavaScript strings and the collation of SQLite TEXT
values.  On ISO `YYYY-MM-DD` strings it is exactly chronological order. -/
def lexLtL : List Char → List Char → Bool
  | [], [] => false
  | [], _ :: _ => true
  | _ :: _, [] => false
  | a :: as, b :: bs =>
    if a.toNat < b.toNat then true
    else if b.toNat < a.toNat then false
    else lexLtL as bs

/-- `a < b` on strings.  The non-strict comparisons of the source
(`>=`, `<=`) are its negations, exactly as in JavaScript. -/
def strLtB (a b : String) : Bool := lexLtL a.toList b.toList

/-! ## Date normalizer (`src/utils/as-of-date.ts`) -/

/-- The anchored shape test `^\d{4}-\d{2}-\d{2}$` on character lists. -/
def matchesIsoShapeL : List Char → Bool
  | [y1, y2, y3, y4, h1, m1, m2, h2, d1, d2] =>
    isDigitC y1 && isDigitC y2 && isDigitC y3 && isDigitC y4 &&
    h1 = '-' && isDigitC m1 && isDigitC m2 && h2 = '-' &&
    isDigitC d1 && isDigitC d2
  | _ => false

/-- The anchored shape test `^\d{4}-\d{2}-\d{2}$` (`ISO_DATE_PATTERN`). -/
def matchesIsoShape (s : String) : Bool := matchesIsoShapeL s.toList

/-- Number of days of month `m` in year `y` (Gregorian). -/
def daysInMonth (y m : Nat) : Nat :=
  if m = 2 then
    if y % 4 = 0 && (y % 100 ≠ 0 || y % 400 = 0) then 29 else 28
  else if m = 4 || m = 6 || m = 9 || m = 11 then 30
  else 31

/-- Embedding of `isValidCalendarDate`: the source appends `T00:00:00Z`,
parses with `Date.parse` and requires `toISOString` to reproduce the input.
On a string that already passed `ISO_DATE_PATTERN` this holds exactly when
the month is 1..12 and the day is 1..days-of-that-month. -/
def isValidCalendarDate (s : String) : Bool :=
  match s.toList with
  | [y1, y2, y3, y4, _, m1, m2, _, d1, d2] =>
    let y := natOfDigits [y1, y2, y3, y4]
    let m := natOfDigits [m1, m2]
    let d := natOfDigits [d1, d2]
    1 ≤ m && m ≤ 12 && 1 ≤ d && d ≤ daysInMonth y m
  | _ => false

/-- Embedding of `normalizeAsOfDate`.  A thrown `Error` is modelled as
`Except.error` carrying the message. -/
def normalizeAsOfDate (value : Option String) : Except String (Option String) :=
  match value with
  | none => .ok none
  | some v =>
    let trimmed := jsTrim v
    if trimmed.toList.length = 0 then .ok none
    else if !matchesIsoShape trimmed || !isValidCalendarDate trimmed then
      .error "as_of_date must be an ISO date in YYYY-MM-DD format"
    else .ok (some trimmed)

/-! ## Regex-matcher building blocks -/

/-- Match a literal pattern (given lowercased) case-insensitively against the
head of the input, returning the rest. -/
def matchLit (pat : List Char) (cs : List Char) : Option (List Char) :=
  match pat, cs with
  | [], rest => some rest
  | _ :: _, [] => none
  | p :: ps, c :: t => if charLower c = p then matchLit ps t else none

/-- Match a literal pattern case-sensitively. -/
def matchLitCS (pat : List Char) (cs : List Char) : Option (List Char) :=
  match pat, cs with
  | [], rest => some rest
  | _ :: _, [] => none
  | p :: ps, c :: t => if c = p then matchLitCS ps t else none

/-- `\s*` (greedy). -/
def skipWs (cs : List Char) : List Char := cs.dropWhile isWsC

/-- `\s+` (greedy). -/
def reqWs1 (cs : List Char) : Option (List Char) :=
  match cs with
  | c :: t => if isWsC c then some (t.dropWhile isWsC) else none
  | [] => none

/-- `(\d+)` (greedy, at least one digit), returning capture and rest. -/
def takeDigits1 (cs : List Char) : Option (List Char × List Char) :=
  let ds := cs.takeWhile isDigitC
  if ds.isEmpty then none else some (ds, cs.dropWhile isDigitC)

/-- `\.?`: consume a leading dot if present. -/
def optDot (cs : List Char) : List Char :=
  match cs with
  | '.' :: t => t
  | _ => cs

/-- `,?`: consume a leading comma if present. -/
def optComma (cs : List Char) : List Char :=
  match cs with
  | ',' :: t => t
  | _ => cs

/-- First defined alternative (ordered regex alternation). -/
def firstSome (l : List (Option α)) : Option α :=
  l.foldr (fun o acc => Option.orElse o (fun _ => acc)) none

/-- One match found while scanning a text: the capture(s), the offset of the
match (`match.index`) and the whole matched text (`match[0]`). -/
structure ScanMatch (α : Type) where
  cap : α
  index : Nat
  raw : String
  deriving Repr, DecidableEq

/-- Global scan loop of `RegExp.exec` with the `g` flag: try the matcher at
each position, record a match, and resume right after its end. -/
def scanA (m : List Char → Option (α × List Char)) :
    Nat → List Char → Nat → List (ScanMatch α)
  | 0, _, _ => []
  | _ + 1, [], _ => []
  | fuel + 1, c :: rest, idx =>
    match m (c :: rest) with
    | some (cap, rem) =>
      let len := (c :: rest).length - rem.length
      { cap := cap, index := idx, raw := String.mk ((c :: rest).take len) } ::
        scanA m fuel rem (idx + len)
    | none => scanA m fuel rest (idx + 1)

/-- Scan a whole string from offset 0. -/
def scanText (m : List Char → Option (α × List Char)) (text : String) :
    List (ScanMatch α) :=
  scanA m (text.toList.length + 1) text.toList 0

/-! ## Amendment reference parser (amendment half of `src/utils/as-of-date.ts`) -/

inductive AmendType where
  | spremenjen | razveljavljen | crtan | dodan | nov
  deriving Repr, DecidableEq

inductive AmendPosition where
  | suffix | inline | header
  deriving Repr, DecidableEq

structure AmendmentReference where
  uradni_list_ref : Option String
  amended_by_pis : Option String := none
  amendment_type : AmendType
  position : AmendPosition
  raw_text : String
  deriving Repr, DecidableEq

/-- `content.substring(0, index).split('\n')`. -/
def splitOnNl : List Char → List (List Char)
  | [] => [[]]
  | c :: t =>
    let r := splitOnNl t
    if c = '\n' then [] :: r
    else
      match r with
      | h :: t2 => (c :: h) :: t2
      | [] => [[c]]

/-- Embedding of `determinePosition`. -/
def determinePosition (content : String) (index : Nat) : AmendPosition :=
  let lines := splitOnNl (content.toList.take index)
  let currentLine := lines.getLast?.getD []
  if index < 100 then .header
  else if (jsTrimL currentLine).length < 10 then .suffix
  else .inline

/-- The trailing capture `(\d+\/\d+(?:-\w+)?)` of the gazette patterns. -/
def gazTail (cs : List Char) : Option (List Char × List Char) :=
  match takeDigits1 cs with
  | none => none
  | some (d1, r1) =>
    match r1 with
    | '/' :: r2 =>
      match takeDigits1 r2 with
      | none => none
      | some (d2, r3) =>
        match r3 with
        | '-' :: c :: t =>
          if isWordC c then
            some (d1 ++ '/' :: d2 ++ '-' :: (c :: t).takeWhile isWordC,
                  (c :: t).dropWhile isWordC)
          else some (d1 ++ '/' :: d2, r3)
        | _ => some (d1 ++ '/' :: d2, r3)
    | _ => none

/-- `Ur\.?\s*l\.?\s*RS,?\s*št\.?\s*(\d+\/\d+(?:-\w+)?)` with the `i` flag,
returning the capture and the rest of the input. -/
def gazCapture (cs : List Char) : Option (List Char × List Char) :=
  (matchLit ['u', 'r'] cs).bind fun r1 =>
  (matchLit ['l'] (skipWs (optDot r1))).bind fun r3 =>
  (matchLit ['r', 's'] (skipWs (optDot r3))).bind fun r5 =>
  (matchLit ['š', 't'] (skipWs (optComma r5))).bind fun r7 =>
  gazTail (skipWs (optDot r7))

/-- `\s*,?\s*`. -/
def commaWs (cs : List Char) : List Char := skipWs (optComma (skipWs cs))

/-- `z\s+(verb1|verb2|...)\s*,?\s*` followed by the continuation. -/
def verbClauseThen (verbs : List (List Char))
    (cont : List Char → Option (List Char × List Char)) (cs : List Char) :
    Option (List Char × List Char) :=
  (matchLit ['z'] cs).bind fun r1 =>
  (reqWs1 r1).bind fun r2 =>
  firstSome (verbs.map fun v => (matchLit v r2).bind fun r3 => cont (commaWs r3))

/-- Common shape of the four `AMENDMENT_PATTERNS` regexes: the keyword, `\s+`,
an instrument clause (optional only for `razveljavljen`), and the gazette
reference whose capture is returned. -/
def amendMatcher (kw : List Char) (verbs : List (List Char)) (clauseOpt : Bool)
    (cs : List Char) : Option (List Char × List Char) :=
  (matchLit kw cs).bind fun r1 =>
  (reqWs1 r1).bind fun r2 =>
  if clauseOpt then
    Option.orElse (verbClauseThen verbs gazCapture r2) (fun _ => gazCapture r2)
  else verbClauseThen verbs gazCapture r2

def spremenjenMatcher : List Char → Option (List Char × List Char) :=
  amendMatcher "spremenjen".toList
    ["zakonom".toList, "uredbo".toList, "odlokom".toList] false

def razveljavljenMatcher : List Char → Option (List Char × List Char) :=
  amendMatcher "razveljavljen".toList
    ["odločbo".toList, "zakonom".toList, "uredbo".toList] true

def crtanMatcher : List Char → Option (List Char × List Char) :=
  amendMatcher "črtan".toList ["zakonom".toList, "uredbo".toList] false

def dodanMatcher : List Char → Option (List Char × List Char) :=
  amendMatcher "dodan".toList
    ["zakonom".toList, "uredbo".toList, "odlokom".toList] false

/-- The `uradni_list_ref` computed from one match (`match[1]` is truthy in
JavaScript exactly when the capture is a non-empty string). -/
def amendRef (m : ScanMatch (List Char)) : Option String :=
  if m.cap.isEmpty then none else some ("RS, št. " ++ String.mk m.cap)

/-- The dedup key of one match: the amendment kind plus the gazette reference,
falling back to the raw matched text when the capture is absent. -/
def amendKey (tyName : String) (m : ScanMatch (List Char)) : String :=
  tyName ++ "-" ++ (amendRef m).getD m.raw

/-- One `while (match = pattern.exec(content))` loop of
`extractAmendmentReferences`. -/
def amendPass (content : String) (tyName : String) (ty : AmendType)
    (ms : List (ScanMatch (List Char))) (seen : List String) :
    List AmendmentReference × List String :=
  match ms with
  | [] => ([], seen)
  | m :: rest =>
    if seen.contains (amendKey tyName m) then
      amendPass content tyName ty rest seen
    else
      ({ uradni_list_ref := amendRef m, amendment_type := ty,
         position := determinePosition content m.index, raw_text := m.raw } ::
         (amendPass content tyName ty rest (amendKey tyName m :: seen)).1,
       (amendPass content tyName ty rest (amendKey tyName m :: seen)).2)

/-- Embedding of `extractAmendmentReferences`: the four keyword passes run in
order and share one `processedRefs` set. -/
def extractAmendmentReferences (content : String) : List AmendmentReference :=
  let p1 := amendPass content "spremenjen" .spremenjen
    (scanText spremenjenMatcher content) []
  let p2 := amendPass content "razveljavljen" .razveljavljen
    (scanText razveljavljenMatcher content) p1.2
  let p3 := amendPass content "črtan" .crtan
    (scanText crtanMatcher content) p2.2
  let p4 := amendPass content "dodan" .dodan
    (scanText dodanMatcher content) p3.2
  p1.1 ++ p2.1 ++ p3.1 ++ p4.1

/-! ## Cross-reference extractor (`extractCrossReferences`) -/

structure ExtractedCrossReference where
  target_statute : Option String := none
  target_article : Option String := none
  target_paragraph : Option String := none
  raw_text : String
  deriving Repr, DecidableEq

/-- `[A-ZČŠŽ]`. -/
def isUpperAbbrC (c : Char) : Bool :=
  (65 ≤ c.toNat && c.toNat ≤ 90) || c.toNat = 268 || c.toNat = 352 || c.toNat = 381

/-- `[A-ZČŠŽ0-9-]`. -/
def isAbbrBodyC (c : Char) : Bool := isUpperAbbrC c || isDigitC c || c = '-'

/-- The case-declension suffix `(?:a|om|u)?` when nothing follows it in the
pattern: ordered greedy alternation, deterministic consume. -/
def clenSuffixOpt (cs : List Char) : List Char :=
  match matchLitCS ['a'] cs with
  | some r => r
  | none =>
    match matchLitCS ['o', 'm'] cs with
    | some r => r
    | none =>
      match matchLitCS ['u'] cs with
      | some r => r
      | none => cs

/-- The suffix alternatives `(?:a|om|u)?` in preference order, for use sites
where the rest of the pattern must be retried per alternative. -/
def clenSuffixAlts : List (List Char) := [['a'], ['o', 'm'], ['u'], []]

/-- `PARAGRAPH_ARTICLE`: `(\d+)\.\s*odstavek\s+(\d+)\.\s*člen(?:a|om|u)?`,
capturing (paragraph, article). -/
def paraArtMatcher (cs : List Char) : Option ((List Char × List Char) × List Char) :=
  (takeDigits1 cs).bind fun pr =>
  match pr.2 with
  | '.' :: r2 =>
    (matchLitCS "odstavek".toList (skipWs r2)).bind fun r3 =>
    (reqWs1 r3).bind fun r4 =>
    (takeDigits1 r4).bind fun ar =>
    match ar.2 with
    | '.' :: r6 =>
      (matchLitCS "člen".toList (skipWs r6)).map fun r7 =>
        ((pr.1, ar.1), clenSuffixOpt r7)
    | _ => none
  | _ => none

/-- `ARTICLE_WITH_STATUTE`:
`(\d+)\.\s*člen(?:a|om|u)?\s+([A-ZČŠŽ][A-ZČŠŽ0-9-]+(?:-\d+)?)`, capturing
(article, statute abbreviation). -/
def artStatuteMatcher (cs : List Char) : Option ((List Char × List Char) × List Char) :=
  (takeDigits1 cs).bind fun ar =>
  match ar.2 with
  | '.' :: r2 =>
    (matchLitCS "člen".toList (skipWs r2)).bind fun r3 =>
    firstSome (clenSuffixAlts.map fun sfx =>
      (matchLitCS sfx r3).bind fun r4 =>
      (reqWs1 r4).bind fun r5 =>
      match r5 with
      | c :: t =>
        if isUpperAbbrC c then
          let body := t.takeWhile isAbbrBodyC
          if body.isEmpty then none
          else some ((ar.1, c :: body), t.dropWhile isAbbrBodyC)
        else none
      | [] => none)
  | _ => none

/-- The negative lookahead `(?!\s+[A-ZČŠŽ])`: true when `\s+[A-ZČŠŽ]` would
match here. -/
def lookAheadUpper (cs : List Char) : Bool :=
  match reqWs1 cs with
  | some r =>
    match r with
    | c :: _ => isUpperAbbrC c
    | [] => false
  | none => false

/-- `ARTICLE_ONLY`: `(\d+)\.\s*člen(?:a|om|u)?(?!\s+[A-ZČŠŽ])`. -/
def artOnlyMatcher (cs : List Char) : Option (List Char × List Char) :=
  (takeDigits1 cs).bind fun ar =>
  match ar.2 with
  | '.' :: r2 =>
    (matchLitCS "člen".toList (skipWs r2)).bind fun r3 =>
    firstSome (clenSuffixAlts.map fun sfx =>
      (matchLitCS sfx r3).bind fun r4 =>
      if lookAheadUpper r4 then none else some (ar.1, r4))
  | _ => none

/-- One dedup-and-collect loop of `extractCrossReferences`. -/
def crossPass (ms : List (ScanMatch α)) (keyOf : α → String)
    (entryOf : ScanMatch α → ExtractedCrossReference) (seen : List String) :
    List ExtractedCrossReference × List String :=
  match ms with
  | [] => ([], seen)
  | m :: rest =>
    let key := keyOf m.cap
    if seen.contains key then crossPass rest keyOf entryOf seen
    else
      let p := crossPass rest keyOf entryOf (key :: seen)
      (entryOf m :: p.1, p.2)

/-- Embedding of `extractCrossReferences`: the three pattern passes share one
`seen` set; keys are `p<par>-a<art>`, `<statute>-a<art>` and `self-a<art>`. -/
def extractCrossReferences (text : String) : List ExtractedCrossReference :=
  let p1 := crossPass (scanText paraArtMatcher text)
    (fun c => "p" ++ String.mk c.1 ++ "-a" ++ String.mk c.2)
    (fun m => { target_article := some (String.mk m.cap.2),
                target_paragraph := some (String.mk m.cap.1),
                raw_text := m.raw }) []
  let p2 := crossPass (scanText artStatuteMatcher text)
    (fun c => String.mk c.2 ++ "-a" ++ String.mk c.1)
    (fun m => { target_statute := some (String.mk m.cap.2),
                target_article := some (String.mk m.cap.1),
                raw_text := m.raw }) p1.2
  let p3 := crossPass (scanText artOnlyMatcher text)
    (fun c => "self-a" ++ String.mk c)
    (fun m => { target_article := some (String.mk m.cap), raw_text := m.raw }) p2.2
  p1.1 ++ p2.1 ++ p3.1

/-! ## EU reference parser (`src/parsers/eu-reference-parser.ts`) -/

/-- Embedding of `normalizeYear`: the captured year field is an all-digit
string, whose `parseInt` value is the natural number taken here. -/
def normalizeYear (year : Nat) : Nat :=
  if year < 100 then
    if year ≥ 50 then 1900 + year else 2000 + year
  else year

/-! ## Citation parser (`src/citation/parser.ts`) -/

/-- The static abbreviation table `CODE_TO_PIS`, in declaration order (the
order is the alternation order of the generated regexes). -/
def CODE_TO_PIS : List (String × String) := [
  ("URS", "ustava-rs"),
  ("OZ", "obligacijski-zakonik"),
  ("SPZ", "stvarnopravni-zakonik"),
  ("DZ", "dedni-zakon"),
  ("ZZZDR", "zakon-o-zakonski-zvezi-in-druzinskih-razmerjih"),
  ("DZ-1", "druzinski-zakonik"),
  ("KZ-1", "kazenski-zakonik"),
  ("ZKP", "zakon-o-kazenskem-postopku"),
  ("ZP-1", "zakon-o-prekrskih"),
  ("ZPP", "zakon-o-pravdnem-postopku"),
  ("ZIZ", "zakon-o-izvrsbi-in-zavarovanju"),
  ("ZUS-1", "zakon-o-upravnem-sporu"),
  ("ZUP", "zakon-o-splosnem-upravnem-postopku"),
  ("ZGD-1", "zakon-o-gospodarskih-druzbah"),
  ("ZFPPIPP", "zakon-o-financnem-poslovanju-postopkih-zaradi-insolventnosti-in-prisilnem-prenehanju"),
  ("ZDR-1", "zakon-o-delovnih-razmerjih"),
  ("ZUTD", "zakon-o-urejanju-trga-dela"),
  ("ZLS", "zakon-o-lokalni-samoupravi"),
  ("ZJU", "zakon-o-javnih-usluzbenskih"),
  ("ZDU-1", "zakon-o-drzavni-upravi"),
  ("ZVOP-2", "zakon-o-varstvu-osebnih-podatkov"),
  ("ZDavP-2", "zakon-o-davcnem-postopku"),
  ("ZDDV-1", "zakon-o-davku-na-dodano-vrednost"),
  ("ZDoh-2", "zakon-o-dohodnini"),
  ("ZDDPO-2", "zakon-o-davku-od-dohodkov-pravnih-oseb"),
  ("ZVO-2", "zakon-o-varstvu-okolja"),
  ("ZGO-1", "zakon-o-graditvi-objektov"),
  ("ZJN-3", "zakon-o-javnem-narocanju"),
  ("ZMed", "zakon-o-medijih"),
  ("ZZavar-1", "zakon-o-zavarovalnistvu"),
  ("ZBan-3", "zakon-o-bancnistvu"),
  ("ZTFI-1", "zakon-o-trgu-financnih-instrumentov")]

/-- `Object.keys(CODE_TO_PIS)` (the `CODE_NAMES` alternation). -/
def codeKeys : List String := CODE_TO_PIS.map Prod.fst

/-- `CODE_TO_PIS[code]`. -/
def pisLookup (code : String) : Option String :=
  (CODE_TO_PIS.find? (fun p => p.1 = code)).map Prod.snd

inductive CitationType where
  | statute | case_law | eu_directive | eu_regulation
  deriving Repr, DecidableEq

structure ParsedCitation where
  raw : String
  type : CitationType
  document_id : String
  article : Option String := none
  paragraph : Option String := none
  code_abbreviation : Option String := none
  ecli : Option String := none
  uradni_list_ref : Option String := none
  valid : Bool
  error : Option String := none
  deriving Repr, DecidableEq

/-- `[A-Z]`. -/
def isUpperAZ (c : Char) : Bool := 65 ≤ c.toNat && c.toNat ≤ 90

/-- Consume a leading dot, failing otherwise (the literal `\.` at the head of
a pattern tail). -/
def dotThen (cs : List Char) : Option (List Char) :=
  match cs with
  | '.' :: t => some t
  | _ => none

/-- Consume a leading comma, failing otherwise. -/
def commaThen (cs : List Char) : Option (List Char) :=
  match cs with
  | ',' :: t => some t
  | _ => none

/-- `[XY]` on the head of the input (a two-letter character class). -/
def headIn2 (c1 c2 : Char) (cs : List Char) : Option (List Char) :=
  match cs with
  | c :: t => if c = c1 || c = c2 then some t else none
  | [] => none

/-- `ECLI_PATTERN.test`: `^ECLI:SI:[A-Z]{2,5}:\d{4}:[\w.]+$` (case-sensitive). -/
def ecliTest (cs : List Char) : Bool :=
  match matchLitCS "ECLI:SI:".toList cs with
  | none => false
  | some r1 =>
    let run := r1.takeWhile isUpperAZ
    2 ≤ run.length && run.length ≤ 5 &&
    (match r1.dropWhile isUpperAZ with
     | ':' :: r2 =>
       (r2.takeWhile isDigitC).length = 4 &&
       (match r2.dropWhile isDigitC with
        | ':' :: r3 => !r3.isEmpty && r3.all (fun c => isWordC c || c = '.')
        | _ => false)
     | _ => false)

/-- The alternation `(?:Uradni\s+list|Ur\.\s*l\.)` of `URADNI_LIST_PATTERN`
(`i` flag). -/
def ulHead (cs : List Char) : Option (List Char) :=
  firstSome [
    (matchLit "uradni".toList cs).bind fun r =>
      (reqWs1 r).bind fun r2 => matchLit "list".toList r2,
    (matchLit "ur".toList cs).bind fun r =>
      (matchLitCS ['.'] r).bind fun r2 =>
      (matchLit ['l'] (skipWs r2)).bind fun r3 => matchLitCS ['.'] r3]

/-- The optional `-\d+` tail of the gazette capture `(\d+\/\d{2}(?:-\d+)?)`. -/
def ulDashTail (rest : List Char) : List Char :=
  match rest with
  | '-' :: c :: t => if isDigitC c then '-' :: (c :: t).takeWhile isDigitC else []
  | _ => []

/-- `URADNI_LIST_PATTERN` (anchored at the start only): returns the capture
`(\d+\/\d{2}(?:-\d+)?)`. -/
def ulMatcher (cs : List Char) : Option (List Char) :=
  (ulHead cs).bind fun r1 =>
  (reqWs1 r1).bind fun r2 =>
  (matchLit "rs".toList r2).bind fun r3 =>
  (reqWs1 (optComma r3)).bind fun r4 =>
  (match r4 with
   | c :: t => if charLower c = 'š' || charLower c = 's' then some t else none
   | [] => none).bind fun r5 =>
  (matchLit ['t'] r5).bind fun r6 =>
  (matchLitCS ['.'] r6).bind fun r7 =>
  (reqWs1 r7).bind fun r8 =>
  (takeDigits1 r8).bind fun dr =>
  match dr.2 with
  | '/' :: y1 :: y2 :: rest =>
    if isDigitC y1 && isDigitC y2 then
      some (dr.1 ++ '/' :: y1 :: y2 :: ulDashTail rest)
    else none
  | _ => none

/-- `(\d{2,4})\/(\d+)` of the EU patterns, returning the two digit captures. -/
def euYearNum (cs : List Char) : Option (List Char × List Char) :=
  let run := cs.takeWhile isDigitC
  if 2 ≤ run.length && run.length ≤ 4 then
    match cs.dropWhile isDigitC with
    | '/' :: r2 => (takeDigits1 r2).map fun nr => (run, nr.1)
    | _ => none
  else none

/-- The optional community group `(?:\(?(EU|ES|EGS)\)?\s+)?` (case-sensitive),
with the rest of the pattern as continuation. -/
def communityOpt (cs : List Char) (cont : List Char → Option α) : Option α :=
  let inner := fun (r0 : List Char) =>
    firstSome (["EU", "ES", "EGS"].map fun comm =>
      (matchLitCS comm.toList r0).bind fun r1 =>
      firstSome [
        (matchLitCS [')'] r1).bind fun r2 => (reqWs1 r2).bind cont,
        (reqWs1 r1).bind cont])
  Option.orElse
    (firstSome [(matchLitCS ['('] cs).bind inner, inner cs])
    (fun _ => cont cs)

/-- The optional `(?:št\.\s*)?` group (case-sensitive). -/
def stOpt (cs : List Char) (cont : List Char → Option α) : Option α :=
  Option.orElse ((matchLitCS "št.".toList cs).bind fun r => cont (skipWs r))
    (fun _ => cont cs)

/-- `EU_DIRECTIVE_PATTERN` (anchored at the start only): year and number
captures. -/
def dirMatcher (cs : List Char) : Option (List Char × List Char) :=
  (headIn2 'D' 'd' cs).bind fun t0 =>
  (matchLitCS "irektiva".toList t0).bind fun r1 =>
  (reqWs1 r1).bind fun r2 =>
  communityOpt r2 (fun r3 => stOpt r3 euYearNum)

/-- `EU_REGULATION_PATTERN` (anchored at the start only). -/
def regMatcher (cs : List Char) : Option (List Char × List Char) :=
  (headIn2 'U' 'u' cs).bind fun t0 =>
  (matchLitCS "redba".toList t0).bind fun r1 =>
  (reqWs1 r1).bind fun r2 =>
  communityOpt r2 (fun r3 => stOpt r3 euYearNum)

/-- `[a-ž]` under the `i` flag: the raw range U+0061..U+017E plus the ASCII
uppercase letters whose lowercase falls inside it. -/
def isArticleLetter (c : Char) : Bool :=
  (97 ≤ c.toNat && c.toNat ≤ 382) || (65 ≤ c.toNat && c.toNat ≤ 90)

/-- Case-insensitive equality of character lists. -/
def ciEqL (xs ys : List Char) : Bool := xs.map charLower == ys.map charLower

/-- The expanded alternatives of `(?:člen[a]?|čl\.?)` in regex preference
order. -/
def clenLitAlts : List (List Char) :=
  ["člena".toList, "člen".toList, "čl.".toList, "čl".toList]

/-- `\s*(?:člen[a]?|čl\.?)\s+(CODE_NAMES)$` after the optional dot of
`STATUTE_PATTERN`, returning (article, code). -/
def statCore (art : List Char) (r : List Char) : Option (String × String) :=
  firstSome (clenLitAlts.map fun lit =>
    (matchLit lit (skipWs r)).bind fun r2 =>
    (reqWs1 r2).bind fun r3 =>
    if codeKeys.any (fun k => ciEqL r3 k.toList) then
      some (String.mk art, String.mk r3)
    else none)

/-- Tail of `STATUTE_PATTERN` after the article capture:
`\.?\s*(?:člen[a]?|čl\.?)\s+(CODE_NAMES)$`, returning (article, code). -/
def statRest (art : List Char) (cs : List Char) : Option (String × String) :=
  Option.orElse ((dotThen cs).bind fun t => statCore art t)
    (fun _ => statCore art cs)

/-- The greedy optional `[a-ž]` letter after the digits of an article
capture, feeding the extended capture to the continuation. -/
def artOptLetter (ds : List Char) (r : List Char)
    (cont : List Char → List Char → Option β) : Option β :=
  match r with
  | c :: t => if isArticleLetter c then cont (ds ++ [c]) t else none
  | [] => none

/-- `(\d+[a-ž]?)` then `statRest`: greedy optional letter with backtracking. -/
def statArtCode (cs : List Char) : Option (String × String) :=
  (takeDigits1 cs).bind fun dr =>
  Option.orElse (artOptLetter dr.1 dr.2 statRest) (fun _ => statRest dr.1 dr.2)

/-- `STATUTE_PATTERN` (fully anchored, `i` flag): optional leading paragraph
clause, article, code; returns (paragraph?, article, code). -/
def statuteMatch (cs : List Char) : Option (Option String × String × String) :=
  Option.orElse
    ((takeDigits1 cs).bind fun pr =>
      (dotThen pr.2).bind fun r2 =>
      (firstSome [matchLit "odstavek".toList (skipWs r2),
                  matchLit "odst.".toList (skipWs r2)]).bind fun r3 =>
      (reqWs1 r3).bind fun r4 =>
      (statArtCode r4).map fun ac => (some (String.mk pr.1), ac.1, ac.2))
    (fun _ => (statArtCode cs).map fun ac => (none, ac.1, ac.2))

/-- The member word and the optional trailing paragraph clause of
`ALT_STATUTE_PATTERN` (after its optional dot), anchored at the end. -/
def altCore (art : List Char) (r : List Char) : Option (String × Option String) :=
  firstSome (clenLitAlts.map fun lit =>
    (matchLit lit (skipWs r)).bind fun r2 =>
    firstSome [
      (reqWs1 r2).bind fun r3 =>
        (takeDigits1 r3).bind fun pr =>
        (dotThen pr.2).bind fun r4 =>
        (firstSome [matchLit "odstavek".toList (skipWs r4),
                    matchLit "odst.".toList (skipWs r4)]).bind fun r5 =>
        if r5.isEmpty then some (String.mk art, some (String.mk pr.1)) else none,
      if r2.isEmpty then some (String.mk art, none) else none])

/-- Tail of `ALT_STATUTE_PATTERN` after the article capture. -/
def altRest (art : List Char) (cs : List Char) : Option (String × Option String) :=
  Option.orElse ((dotThen cs).bind fun t => altCore art t)
    (fun _ => altCore art cs)

/-- `,?\s+(\d+[a-ž]?)` then `altRest`. -/
def altTail (cs : List Char) : Option (String × Option String) :=
  (firstSome [
    (commaThen cs).bind reqWs1,
    reqWs1 cs]).bind fun r1 =>
  (takeDigits1 r1).bind fun dr =>
  Option.orElse (artOptLetter dr.1 dr.2 altRest) (fun _ => altRest dr.1 dr.2)

/-- The leading code alternation of `ALT_STATUTE_PATTERN`, tried in
declaration order with the rest of the pattern as continuation. -/
def altFind : List String → List Char → Option (String × String × Option String)
  | [], _ => none
  | k :: ks, cs =>
    match (matchLit (lowerStr k).toList cs).bind altTail with
    | some ap => some (String.mk (cs.take k.toList.length), ap.1, ap.2)
    | none => altFind ks cs

/-- `ALT_STATUTE_PATTERN` (fully anchored, `i` flag):
returns (code, article, paragraph?). -/
def altMatch (cs : List Char) : Option (String × String × Option String) :=
  altFind codeKeys cs

/-- Embedding of `parseCitation`: the ordered first-match-wins cascade. -/
def parseCitation (citation : String) : ParsedCitation :=
  let trimmed := jsTrim citation
  if trimmed.toList.isEmpty then
    { raw := citation, type := .statute, document_id := "", valid := false,
      error := some "Empty citation" }
  else if ecliTest trimmed.toList then
    { raw := citation, type := .case_law, document_id := trimmed,
      ecli := some trimmed, valid := true }
  else
    match ulMatcher trimmed.toList with
    | some capL =>
      { raw := citation, type := .statute,
        document_id := "UL-" ++ String.mk capL,
        uradni_list_ref := some (String.mk capL), valid := true }
    | none =>
      match dirMatcher trimmed.toList with
      | some yn =>
        { raw := citation, type := .eu_directive,
          document_id := "directive:" ++ toString (natOfDigits yn.1) ++ "/" ++
            toString (natOfDigits yn.2),
          valid := true }
      | none =>
        match regMatcher trimmed.toList with
        | some yn =>
          { raw := citation, type := .eu_regulation,
            document_id := "regulation:" ++ toString (natOfDigits yn.1) ++ "/" ++
              toString (natOfDigits yn.2),
            valid := true }
        | none =>
          match statuteMatch trimmed.toList with
          | some pac =>
            { raw := citation, type := .statute,
              document_id := (pisLookup pac.2.2).getD (lowerStr pac.2.2),
              article := some pac.2.1, paragraph := pac.1,
              code_abbreviation := some pac.2.2, valid := true }
          | none =>
            match altMatch trimmed.toList with
            | some kap =>
              { raw := citation, type := .statute,
                document_id := (pisLookup kap.1).getD (lowerStr kap.1),
                article := some kap.2.1, paragraph := kap.2.2,
                code_abbreviation := some kap.1, valid := true }
            | none =>
              { raw := citation, type := .statute, document_id := "",
                valid := false,
                error := some ("Unrecognized citation format: \"" ++ trimmed ++ "\"") }

/-! ## Citation formatter (`src/citation/formatter.ts`) -/

inductive CitationFormat where
  | full | short | pinpoint
  deriving Repr, DecidableEq

/-- The static `CODE_FULL_NAMES` table of the formatter. -/
def CODE_FULL_NAMES : List (String × String) := [
  ("URS", "Ustava Republike Slovenije"),
  ("OZ", "Obligacijski zakonik"),
  ("SPZ", "Stvarnopravni zakonik"),
  ("DZ", "Dedni zakon"),
  ("ZZZDR", "Zakon o zakonski zvezi in družinskih razmerjih"),
  ("DZ-1", "Družinski zakonik"),
  ("KZ-1", "Kazenski zakonik"),
  ("ZKP", "Zakon o kazenskem postopku"),
  ("ZP-1", "Zakon o prekrških"),
  ("ZPP", "Zakon o pravdnem postopku"),
  ("ZIZ", "Zakon o izvršbi in zavarovanju"),
  ("ZUS-1", "Zakon o upravnem sporu"),
  ("ZUP", "Zakon o splošnem upravnem postopku"),
  ("ZGD-1", "Zakon o gospodarskih družbah"),
  ("ZFPPIPP", "Zakon o finančnem poslovanju, postopkih zaradi insolventnosti in prisilnem prenehanju"),
  ("ZDR-1", "Zakon o delovnih razmerjih"),
  ("ZUTD", "Zakon o urejanju trga dela"),
  ("ZLS", "Zakon o lokalni samoupravi"),
  ("ZJU", "Zakon o javnih uslužbencih"),
  ("ZDU-1", "Zakon o državni upravi"),
  ("ZVOP-2", "Zakon o varstvu osebnih podatkov"),
  ("ZDavP-2", "Zakon o davčnem postopku"),
  ("ZDDV-1", "Zakon o davku na dodano vrednost"),
  ("ZDoh-2", "Zakon o dohodnini"),
  ("ZDDPO-2", "Zakon o davku od dohodkov pravnih oseb"),
  ("ZVO-2", "Zakon o varstvu okolja"),
  ("ZGO-1", "Zakon o graditvi objektov"),
  ("ZJN-3", "Zakon o javnem naročanju"),
  ("ZMed", "Zakon o medijih"),
  ("ZZavar-1", "Zakon o zavarovalništvu"),
  ("ZBan-3", "Zakon o bančništvu"),
  ("ZTFI-1", "Zakon o trgu finančnih instrumentov")]

/-- Embedding of `formatCitation`: best-effort rendering, never fails. -/
def formatCitation (citation : String) (format : CitationFormat) : String :=
  let parsed := parseCitation citation
  if !parsed.valid then citation
  else if parsed.type = .case_law && parsed.ecli.isSome then parsed.ecli.getD ""
  else if parsed.type = .eu_directive || parsed.type = .eu_regulation then parsed.raw
  else if parsed.type = .statute && parsed.code_abbreviation.isSome then
    let code := parsed.code_abbreviation.getD ""
    let article := parsed.article.getD ""
    let paragraphStr :=
      match parsed.paragraph with
      | some p => ", " ++ p ++ ". odstavek"
      | none => ""
    match format with
    | .full =>
      let fullName :=
        (((CODE_FULL_NAMES.find? (fun q => q.1 = code)).map Prod.snd).getD code)
      article ++ ". člen " ++ fullName ++ " (" ++ code ++ ")" ++ paragraphStr
    | .short => article ++ ". člen " ++ code ++ paragraphStr
    | .pinpoint => article ++ ". člen" ++ paragraphStr
  else citation

/-! ## Citation validator (`src/citation/validator.ts`) -/

structure DocRow where
  id : String
  title : String
  status : String
  deriving Repr, DecidableEq

structure ProvRow where
  document_id : String
  provision_ref : String
  deriving Repr, DecidableEq

/-- Read-only view of the relational store consumed by the validator:
the `legal_documents` and `legal_provisions` tables. -/
structure StoreModel where
  documents : List DocRow
  provisions : List ProvRow
  deriving Repr

structure ValidationResult where
  citation : ParsedCitation
  document_exists : Bool
  provision_exists : Bool
  status : Option String := none
  document_title : Option String := none
  warnings : List String
  deriving Repr, DecidableEq

/-- Embedding of `validateCitation`.  The two `db.prepare(...).get(...)`
lookups become `List.find?` over the table models. -/
def validateCitation (db : StoreModel) (citation : String) : ValidationResult :=
  let parsed := parseCitation citation
  if !parsed.valid then
    { citation := parsed, document_exists := false, provision_exists := false,
      warnings := [parsed.error.getD "Invalid citation format"] }
  else
    let docRow := db.documents.find? (fun d => d.id = parsed.document_id)
    let documentExists := docRow.isSome
    let warnings :=
      match docRow with
      | some d =>
        if d.status = "repealed" then
          ["Dokument \"" ++ d.title ++ "\" je prenehal veljati (repealed)"]
        else if d.status = "amended" then
          ["Dokument \"" ++ d.title ++ "\" je bil spremenjen — preverite veljavno besedilo"]
        else []
      | none => []
    let provisionExists :=
      if parsed.type == .statute && parsed.article.isSome then
        (db.provisions.find? (fun p =>
          p.document_id == parsed.document_id &&
          p.provision_ref == parsed.article.getD "")).isSome
      else documentExists
    { citation := parsed, document_exists := documentExists,
      provision_exists := provisionExists,
      status := docRow.map (fun d => d.status),
      document_title := docRow.map (fun d => d.title),
      warnings := warnings }

/-! ## Temporal provision resolver (`src/tools/registry.ts`) -/

inductive PStatus where
  | current | historical | future | not_found
  deriving Repr, DecidableEq

structure VersionRow where
  document_id : String
  provision_ref : String
  chapter : Option String := none
  sect : Option String := none
  article : String
  title : Option String := none
  content : String
  valid_from : Option String := none
  valid_to : Option String := none
  deriving Repr, DecidableEq

structure CrossRefRow where
  source_document_id : String
  target_document_id : String
  target_provision_ref : String
  ref_type : String
  deriving Repr, DecidableEq

/-- Read-only view of the store consumed by the resolver: the
`legal_provision_versions` and `cross_references` tables. -/
structure RegistryDb where
  versions : List VersionRow
  cross_references : List CrossRefRow
  deriving Repr

structure AmendmentRecord where
  source_document_id : String
  amendment_date : Option String := none
  ref_type : String
  deriving Repr, DecidableEq

structure ProvisionVersion where
  provision_ref : String
  chapter : Option String := none
  sect : Option String := none
  article : String
  title : Option String := none
  content : String
  valid_from : Option String := none
  valid_to : Option String := none
  status : PStatus
  amendments : Option (List AmendmentRecord) := none
  deriving Repr, DecidableEq

/-- The interval predicate of the first SQL query:
`(valid_from IS NULL OR valid_from <= d) AND (valid_to IS NULL OR valid_to > d)`.
Dates are ISO strings, on which SQLite TEXT comparison is the lexicographic
`String` order. -/
def containsDate (validFrom validTo : Option String) (d : String) : Bool :=
  (match validFrom with
   | some f => !strLtB d f
   | none => true) &&
  (match validTo with
   | some t => strLtB d t
   | none => true)

/-- The predicate of the second SQL query: `valid_from > d` (a NULL
`valid_from` compares as NULL, excluding the row). -/
def isFutureRow (validFrom : Option String) (d : String) : Bool :=
  match validFrom with
  | some f => strLtB d f
  | none => false

/-- `ORDER BY valid_from DESC LIMIT 1`: keep the row with the largest
`valid_from`, NULL ordering lowest. -/
def laterFrom (a b : Option String) : Bool :=
  match a, b with
  | some x, some y => strLtB y x
  | some _, none => true
  | none, _ => false

def selectLatest (rows : List VersionRow) : Option VersionRow :=
  rows.foldl
    (fun acc r =>
      match acc with
      | none => some r
      | some b => if laterFrom r.valid_from b.valid_from then some r else some b)
    none

/-- `ORDER BY valid_from ASC LIMIT 1` over rows with non-NULL `valid_from`. -/
def selectEarliest (rows : List VersionRow) : Option VersionRow :=
  rows.foldl
    (fun acc r =>
      match acc with
      | none => some r
      | some b => if laterFrom b.valid_from r.valid_from then some r else some b)
    none

/-- Embedding of `determineProvisionStatus`.  The wall-clock date read by the
source (`new Date().toISOString().slice(0, 10)`) is the explicit `today`. -/
def determineProvisionStatus (validFrom validTo : Option String)
    (queryDate today : String) : PStatus :=
  if (match validFrom with | some f => strLtB queryDate f | none => false) then
    .future
  else if (match validTo with | some t => !strLtB queryDate t | none => false) then
    .historical
  else if ((match validFrom with | some f => !strLtB today f | none => true) &&
           (match validTo with | some t => strLtB today t | none => true)) then
    .current
  else if (match validTo with | some t => !strLtB today t | none => false) then
    .historical
  else .current

/-- Embedding of `getAmendments`. -/
def getAmendments (db : RegistryDb) (documentId provisionRef : String) :
    List AmendmentRecord :=
  (db.cross_references.filter (fun r =>
    r.target_document_id == documentId &&
    r.target_provision_ref == provisionRef &&
    r.ref_type == "amended_by")).map
    (fun r => { source_document_id := r.source_document_id,
                amendment_date := none, ref_type := r.ref_type })

/-- Embedding of `getProvisionAtDate`.  Thrown errors become `Except.error`;
the response metadata wrapper is dropped. -/
def getProvisionAtDate (db : RegistryDb) (document_id provision_ref date : String)
    (include_amendments : Bool) (today : String) : Except String ProvisionVersion :=
  match normalizeAsOfDate (some date) with
  | .error e => .error e
  | .ok none => .error "date parameter is required and must be in YYYY-MM-DD format"
  | .ok (some queryDate) =>
    let rows := db.versions.filter (fun r =>
      r.document_id == document_id && r.provision_ref == provision_ref &&
      containsDate r.valid_from r.valid_to queryDate)
    match selectLatest rows with
    | none =>
      let futureRows := db.versions.filter (fun r =>
        r.document_id == document_id && r.provision_ref == provision_ref &&
        isFutureRow r.valid_from queryDate)
      match selectEarliest futureRows with
      | some fr =>
        .ok { provision_ref := fr.provision_ref, chapter := fr.chapter,
              sect := fr.sect, article := fr.article, title := fr.title,
              content := fr.content, valid_from := fr.valid_from,
              valid_to := fr.valid_to, status := .future }
      | none =>
        .ok { provision_ref := provision_ref, chapter := none, sect := none,
              article := provision_ref, title := none, content := "",
              valid_from := none, valid_to := none, status := .not_found }
    | some row =>
      let status := determineProvisionStatus row.valid_from row.valid_to queryDate today
      .ok { provision_ref := row.provision_ref, chapter := row.chapter,
            sect := row.sect, article := row.article, title := row.title,
            content := row.content, valid_from := row.valid_from,
            valid_to := row.valid_to, status := status,
            amendments :=
              if include_amendments then
                some (getAmendments db document_id provision_ref)
              else none }

/-! ## Helper lemmas -/

theorem digit_not_ws {c : Char} (h : isDigitC c = true) : isWsC c = false := by
  simp only [isDigitC, Bool.and_eq_true, decide_eq_true_eq] at h
  simp only [isWsC, Bool.or_eq_false_iff, decide_eq_false_iff_not]
  omega

theorem dropWhile_of_head {p : Char → Bool} {l : List Char}
    (h : ∀ c, l.head? = some c → p c = false) : l.dropWhile p = l := by
  cases l with
  | nil => rfl
  | cons c t =>
    have := h c rfl
    simp [List.dropWhile, this]

theorem jsTrimL_of_ends {l : List Char}
    (h1 : ∀ c, l.head? = some c → isWsC c = false)
    (h2 : ∀ c, l.getLast? = some c → isWsC c = false) : jsTrimL l = l := by
  unfold jsTrimL
  rw [dropWhile_of_head h1]
  rw [dropWhile_of_head (by intro c hc; exact h2 c (by rwa [List.head?_reverse] at hc))]
  exact List.reverse_reverse l

theorem jsTrimL_iso {l : List Char} (h : matchesIsoShapeL l = true) : jsTrimL l = l := by
  unfold matchesIsoShapeL at h
  split at h
  · rename_i y1 y2 y3 y4 h1 m1 m2 h2 d1 d2
    simp only [Bool.and_eq_true] at h
    apply jsTrimL_of_ends
    · intro c hc
      simp only [List.head?_cons, Option.some.injEq] at hc
      subst hc
      exact digit_not_ws h.1.1.1.1.1.1.1.1.1
    · intro c hc
      simp only [List.getLast?, List.getLast, Option.some.injEq] at hc
      exact hc ▸ digit_not_ws h.2
  · exact absurd h (by simp)

theorem jsTrim_iso {s : String} (h : matchesIsoShape s = true) : jsTrim s = s := by
  unfold jsTrim
  rw [jsTrimL_iso h]
  cases s
  rfl

theorem iso_length {l : List Char} (h : matchesIsoShapeL l = true) : l.length = 10 := by
  unfold matchesIsoShapeL at h
  split at h
  · rfl
  · exact absurd h (by simp)

theorem toList_nil_eq_empty {s : String} (h : s.toList = []) : s = "" := by
  cases s with
  | mk data =>
    simp only [String.toList] at h
    rw [h]

/-- Shared: `normalizeAsOfDate` is the identity on strings of the strict ISO
shape denoting a real calendar date. -/
theorem normalizeAsOfDate_valid {s : String} (hs : matchesIsoShape s = true)
    (hr : isValidCalendarDate s = true) :
    normalizeAsOfDate (some s) = .ok (some s) := by
  have hs10 : s.toList.length = 10 := iso_length hs
  simp only [normalizeAsOfDate]
  rw [jsTrim_iso hs]
  rw [if_neg (by omega)]
  rw [if_neg (by simp [hs, hr])]

theorem lexLtL_asymm {a b : List Char} (h : lexLtL a b = true) :
    lexLtL b a = false := by
  induction a generalizing b with
  | nil =>
    cases b with
    | nil => simp [lexLtL] at h
    | cons y ys => simp [lexLtL]
  | cons x xs ih =>
    cases b with
    | nil => simp [lexLtL] at h
    | cons y ys =>
      unfold lexLtL at h ⊢
      by_cases h1 : x.toNat < y.toNat
      · rw [if_neg (by omega), if_pos h1]
      · by_cases h2 : y.toNat < x.toNat
        · rw [if_neg h1, if_pos h2] at h
          exact absurd h (by simp)
        · rw [if_neg h1, if_neg h2] at h
          rw [if_neg h2, if_neg h1]
          exact ih h

theorem strLtB_asymm {a b : String} (h : strLtB a b = true) :
    strLtB b a = false :=
  lexLtL_asymm h

/-! ## Claim theorems -/

/-- C7: In `extractEUReferences`, both extraction loops emit
`normalizeYear` of the captured year field verbatim; for a captured value
`y < 100` the emitted year is `1900 + y` when `y ≥ 50` and `2000 + y` when
`y < 50`, and captured values `≥ 100` are emitted unchanged. -/
theorem claim_C7 (y : Nat) :
    (y < 100 → 50 ≤ y → normalizeYear y = 1900 + y) ∧
    (y < 100 → y < 50 → normalizeYear y = 2000 + y) ∧
    (100 ≤ y → normalizeYear y = y) := by
  refine ⟨fun h1 h2 => ?_, fun h1 h2 => ?_, fun h1 => ?_⟩
  · unfold normalizeYear; rw [if_pos h1, if_pos h2]
  · unfold normalizeYear; rw [if_pos h1, if_neg (by omega)]
  · unfold normalizeYear; rw [if_neg (by omega)]

/-- Witness for C7 at the concrete captured years 95, 46 and 2016. -/
theorem claim_C7_witness :
    normalizeYear 95 = 1995 ∧ normalizeYear 46 = 2046 ∧ normalizeYear 2016 = 2016 :=
  ⟨(claim_C7 95).1 (by decide) (by decide),
   (claim_C7 46).2.1 (by decide) (by decide),
   (claim_C7 2016).2.2 (by decide)⟩

/-- C8: `extractCrossReferences` on the exact string "v skladu z 42. členom"
returns exactly one entry, a self-referential cross-reference to article 42
with no target statute and no target paragraph. -/
theorem claim_C8 :
    extractCrossReferences "v skladu z 42. členom" =
      [{ target_statute := none, target_article := some "42",
         target_paragraph := none, raw_text := "42. členom" }] := by
  rfl

/-- C5: a version row satisfying the containing-interval predicate of the
first query of `getProvisionAtDate` is classified by
`determineProvisionStatus` as current or historical, never future. -/
theorem claim_C5 (vf vto : Option String) (d today : String)
    (h : containsDate vf vto d = true) :
    determineProvisionStatus vf vto d today = .current ∨
    determineProvisionStatus vf vto d today = .historical := by
  unfold containsDate at h
  unfold determineProvisionStatus
  rcases vf with _ | f <;> rcases vto with _ | t <;>
    simp only [Bool.and_eq_true, Bool.not_eq_true', Bool.true_and,
      Bool.and_true] at h
  · simp
  · rw [if_neg (by simp), if_neg (by simp [h])]
    split
    · exact Or.inl rfl
    split
    · exact Or.inr rfl
    · exact Or.inl rfl
  · rw [if_neg (by simp [h]), if_neg (by simp)]
    split
    · exact Or.inl rfl
    · rw [if_neg (by simp)]
      exact Or.inl rfl
  · rw [if_neg (by simp [h.1]), if_neg (by simp [h.2])]
    split
    · exact Or.inl rfl
    split
    · exact Or.inr rfl
    · exact Or.inl rfl

/-- C3 counterexample: the claim requires every non-empty, non-whitespace-only
string not matching the strict shape to be rejected, but a shape-matching date
surrounded by whitespace is accepted after trimming. -/
theorem claim_C3_cex :
    jsTrim " 2021-01-01" ≠ "" ∧
    matchesIsoShape " 2021-01-01" = false ∧
    normalizeAsOfDate (some " 2021-01-01") = .ok (some "2021-01-01") :=
  ⟨by decide, by decide, by rfl⟩

/-- C3 (amended): `normalizeAsOfDate` is the identity on strict-shape real
calendar dates, and throws the format error exactly on those inputs whose
trimmed form is non-empty and either fails the shape test or is not a real
calendar date. -/
theorem claim_C3 :
    (∀ s : String, matchesIsoShape s = true → isValidCalendarDate s = true →
      normalizeAsOfDate (some s) = .ok (some s)) ∧
    (∀ s : String, jsTrim s ≠ "" →
      (matchesIsoShape (jsTrim s) = false ∨ isValidCalendarDate (jsTrim s) = false) →
      normalizeAsOfDate (some s) =
        .error "as_of_date must be an ISO date in YYYY-MM-DD format") := by
  constructor
  · intro s hs hr
    exact normalizeAsOfDate_valid hs hr
  · intro s hne hbad
    simp only [normalizeAsOfDate]
    rw [if_neg (fun h0 => hne (toList_nil_eq_empty (List.length_eq_zero.mp h0)))]
    rw [if_pos (by rcases hbad with hb | hb <;> simp [hb])]

/-- Witness for C3 at a real leap date and at the unreal date 2021-02-30. -/
theorem claim_C3_witness :
    normalizeAsOfDate (some "2024-02-29") = .ok (some "2024-02-29") ∧
    normalizeAsOfDate (some "2021-02-30") =
      .error "as_of_date must be an ISO date in YYYY-MM-DD format" :=
  ⟨claim_C3.1 "2024-02-29" (by decide) (by decide),
   claim_C3.2 "2021-02-30" (by decide) (Or.inr (by decide))⟩

/-- Witness for C5 at a concrete contained row. -/
theorem claim_C5_witness :
    containsDate (some "2010-01-01") (some "2015-06-01") "2014-12-31" = true ∧
    (determineProvisionStatus (some "2010-01-01") (some "2015-06-01")
        "2014-12-31" "2025-06-15" = .current ∨
      determineProvisionStatus (some "2010-01-01") (some "2015-06-01")
        "2014-12-31" "2025-06-15" = .historical) :=
  ⟨by decide,
   claim_C5 (some "2010-01-01") (some "2015-06-01") "2014-12-31" "2025-06-15"
     (by decide)⟩

/-- C6: when the version table holds no row for the pair whose interval
contains the (valid ISO) query date and no row for the pair with `valid_from`
strictly after it, `getProvisionAtDate` returns the synthetic result with
status `not_found`, empty content and null bounds. -/
theorem claim_C6 (db : RegistryDb) (did pref d today : String) (ia : Bool)
    (hshape : matchesIsoShape d = true) (hreal : isValidCalendarDate d = true)
    (hnone : ∀ r ∈ db.versions, r.document_id = did → r.provision_ref = pref →
      containsDate r.valid_from r.valid_to d = false)
    (hfut : ∀ r ∈ db.versions, r.document_id = did → r.provision_ref = pref →
      isFutureRow r.valid_from d = false) :
    getProvisionAtDate db did pref d ia today =
      .ok { provision_ref := pref, chapter := none, sect := none, article := pref,
            title := none, content := "", valid_from := none, valid_to := none,
            status := .not_found } := by
  simp only [getProvisionAtDate]
  rw [normalizeAsOfDate_valid hshape hreal]
  have hf1 : db.versions.filter (fun r =>
      r.document_id == did && r.provision_ref == pref &&
      containsDate r.valid_from r.valid_to d) = [] := by
    rw [List.filter_eq_nil_iff]
    intro r hr hc
    simp only [Bool.and_eq_true, beq_iff_eq] at hc
    exact absurd hc.2 (by simp [hnone r hr hc.1.1 hc.1.2])
  have hf2 : db.versions.filter (fun r =>
      r.document_id == did && r.provision_ref == pref &&
      isFutureRow r.valid_from d) = [] := by
    rw [List.filter_eq_nil_iff]
    intro r hr hc
    simp only [Bool.and_eq_true, beq_iff_eq] at hc
    exact absurd hc.2 (by simp [hfut r hr hc.1.1 hc.1.2])
  simp only [hf1, hf2]
  rfl

/-- Witness for C6 on the empty version table. -/
theorem claim_C6_witness :
    getProvisionAtDate ⟨[], []⟩ "d" "14" "2020-01-01" false "2025-06-15" =
      .ok { provision_ref := "14", chapter := none, sect := none, article := "14",
            title := none, content := "", valid_from := none, valid_to := none,
            status := .not_found } :=
  claim_C6 ⟨[], []⟩ "d" "14" "2020-01-01" "2025-06-15" false
    (by decide) (by decide) (by intro r hr; cases hr) (by intro r hr; cases hr)

/-- C1: over a version table holding exactly the intervals
[2010-01-01, 2015-06-01) and [2015-06-01, open) for the pair, resolving at
2014-12-31 returns the first version with status historical (given that today
is after 2015-06-01), and resolving at 2020-01-01 returns the second version
with status current. -/
theorem claim_C1 (r1 r2 : VersionRow) (today : String)
    (h1d : r1.document_id = "d") (h1p : r1.provision_ref = "14")
    (h1f : r1.valid_from = some "2010-01-01") (h1t : r1.valid_to = some "2015-06-01")
    (h2d : r2.document_id = "d") (h2p : r2.provision_ref = "14")
    (h2f : r2.valid_from = some "2015-06-01") (h2t : r2.valid_to = none)
    (htoday : strLtB "2015-06-01" today = true) :
    getProvisionAtDate ⟨[r1, r2], []⟩ "d" "14" "2014-12-31" false today =
      .ok { provision_ref := r1.provision_ref, chapter := r1.chapter,
            sect := r1.sect, article := r1.article, title := r1.title,
            content := r1.content, valid_from := r1.valid_from,
            valid_to := r1.valid_to, status := .historical } ∧
    getProvisionAtDate ⟨[r1, r2], []⟩ "d" "14" "2020-01-01" false today =
      .ok { provision_ref := r2.provision_ref, chapter := r2.chapter,
            sect := r2.sect, article := r2.article, title := r2.title,
            content := r2.content, valid_from := r2.valid_from,
            valid_to := r2.valid_to, status := .current } := by
  have hT : strLtB today "2015-06-01" = false := strLtB_asymm htoday
  constructor
  · simp only [getProvisionAtDate]
    rw [show normalizeAsOfDate (some "2014-12-31") = .ok (some "2014-12-31") from rfl]
    have p1 : (r1.document_id == "d" && r1.provision_ref == "14" &&
        containsDate r1.valid_from r1.valid_to "2014-12-31") = true := by
      rw [h1d, h1p, h1f, h1t]; decide
    have p2 : (r2.document_id == "d" && r2.provision_ref == "14" &&
        containsDate r2.valid_from r2.valid_to "2014-12-31") = false := by
      rw [h2d, h2p, h2f, h2t]; decide
    simp only [List.filter, p1, p2]
    simp only [selectLatest, List.foldl]
    have st : determineProvisionStatus r1.valid_from r1.valid_to "2014-12-31" today
        = .historical := by
      rw [h1f, h1t]
      unfold determineProvisionStatus
      rw [if_neg (by decide), if_neg (by decide)]
      rw [if_neg (by simp [hT]), if_pos (by simp [hT])]
    rw [st]
    rfl
  · simp only [getProvisionAtDate]
    rw [show normalizeAsOfDate (some "2020-01-01") = .ok (some "2020-01-01") from rfl]
    have p1 : (r1.document_id == "d" && r1.provision_ref == "14" &&
        containsDate r1.valid_from r1.valid_to "2020-01-01") = false := by
      rw [h1d, h1p, h1f, h1t]; decide
    have p2 : (r2.document_id == "d" && r2.provision_ref == "14" &&
        containsDate r2.valid_from r2.valid_to "2020-01-01") = true := by
      rw [h2d, h2p, h2f, h2t]; decide
    simp only [List.filter, p1, p2]
    simp only [selectLatest, List.foldl]
    have st : determineProvisionStatus r2.valid_from r2.valid_to "2020-01-01" today
        = .current := by
      rw [h2f, h2t]
      unfold determineProvisionStatus
      rw [if_neg (by decide), if_neg (by simp), if_pos (by simp [hT])]
    rw [st]
    rfl

/-- Witness for C1 at concrete rows and a concrete today after 2015-06-01. -/
theorem claim_C1_witness :
    getProvisionAtDate
        ⟨[{ document_id := "d", provision_ref := "14", article := "14",
            content := "v1", valid_from := some "2010-01-01",
            valid_to := some "2015-06-01" },
          { document_id := "d", provision_ref := "14", article := "14",
            content := "v2", valid_from := some "2015-06-01",
            valid_to := none }], []⟩ "d" "14" "2014-12-31" false "2025-06-15" =
      .ok { provision_ref := "14", chapter := none, sect := none, article := "14",
            title := none, content := "v1", valid_from := some "2010-01-01",
            valid_to := some "2015-06-01", status := .historical } ∧
    getProvisionAtDate
        ⟨[{ document_id := "d", provision_ref := "14", article := "14",
            content := "v1", valid_from := some "2010-01-01",
            valid_to := some "2015-06-01" },
          { document_id := "d", provision_ref := "14", article := "14",
            content := "v2", valid_from := some "2015-06-01",
            valid_to := none }], []⟩ "d" "14" "2020-01-01" false "2025-06-15" =
      .ok { provision_ref := "14", chapter := none, sect := none, article := "14",
            title := none, content := "v2", valid_from := some "2015-06-01",
            valid_to := none, status := .current } :=
  claim_C1
    { document_id := "d", provision_ref := "14", article := "14",
      content := "v1", valid_from := some "2010-01-01",
      valid_to := some "2015-06-01" }
    { document_id := "d", provision_ref := "14", article := "14",
      content := "v2", valid_from := some "2015-06-01", valid_to := none }
    "2025-06-15" rfl rfl rfl rfl rfl rfl rfl rfl (by decide)

/-- C4 counterexample: for a store holding a provision row whose document is
absent from the documents table, `validateCitation` reports
`document_exists = false` but `provision_exists = true` — the provision
lookup runs regardless of document existence. -/
theorem claim_C4_cex :
    (parseCitation "6. člen KZ-1").valid = true ∧
    (parseCitation "6. člen KZ-1").article = some "6" ∧
    (validateCitation
        ⟨[], [{ document_id := "kazenski-zakonik", provision_ref := "6" }]⟩
        "6. člen KZ-1").document_exists = false ∧
    (validateCitation
        ⟨[], [{ document_id := "kazenski-zakonik", provision_ref := "6" }]⟩
        "6. člen KZ-1").provision_exists = true :=
  ⟨rfl, rfl, rfl, rfl⟩

/-- C4 (amended): the provision lookup runs whenever the citation parses as a
statute with an article, regardless of document existence; under referential
integrity of the store (every provision row's document is present in the
documents table), a failed document lookup still forces
`provision_exists = false`. -/
theorem claim_C4_amended (db : StoreModel) (c : String)
    (hri : ∀ p ∈ db.provisions, ∃ dd ∈ db.documents, dd.id = p.document_id)
    (hdoc : (validateCitation db c).document_exists = false) :
    (validateCitation db c).provision_exists = false := by
  simp only [validateCitation] at hdoc ⊢
  by_cases hv : (!(parseCitation c).valid) = true
  · rw [if_pos hv] at hdoc ⊢
  · rw [if_neg hv] at hdoc ⊢
    simp only at hdoc ⊢
    by_cases ha : ((parseCitation c).type == CitationType.statute &&
        (parseCitation c).article.isSome) = true
    · rw [if_pos ha]
      cases hfind : db.provisions.find? (fun p =>
          p.document_id == (parseCitation c).document_id &&
          p.provision_ref == (parseCitation c).article.getD "") with
      | none => simp
      | some p =>
        exfalso
        have hmem := List.mem_of_find?_eq_some hfind
        have hpred := List.find?_some hfind
        simp only [Bool.and_eq_true, beq_iff_eq] at hpred
        obtain ⟨dd, hdd, hid⟩ := hri p hmem
        cases hdq : db.documents.find? (fun d => d.id = (parseCitation c).document_id) with
        | some q => rw [hdq] at hdoc; simp at hdoc
        | none =>
          have := List.find?_eq_none.mp hdq dd hdd
          simp only [decide_eq_true_eq] at this
          exact this (hid.trans hpred.1)
    · rw [if_neg ha]
      exact hdoc

/-- Witness for C4 (amended) on the empty store. -/
theorem claim_C4_amended_witness :
    (validateCitation ⟨[], []⟩ "6. člen KZ-1").provision_exists = false :=
  claim_C4_amended ⟨[], []⟩ "6. člen KZ-1" (by intro p hp; cases hp) rfl

/-! ## Inversion lemmas for the amendment matchers -/

theorem orElse_eq_some {a : Option α} {b : Unit → Option α} {x : α}
    (h : Option.orElse a b = some x) : a = some x ∨ (a = none ∧ b () = some x) := by
  cases a with
  | some v => exact Or.inl h
  | none => exact Or.inr ⟨rfl, h⟩

theorem firstSome_eq_some {l : List (Option α)} {x : α}
    (h : firstSome l = some x) : ∃ o ∈ l, o = some x := by
  induction l with
  | nil => exact absurd h (by simp [firstSome])
  | cons o rest ih =>
    have h1 : Option.orElse o (fun _ => firstSome rest) = some x := h
    rcases orElse_eq_some h1 with h2 | ⟨_, h2⟩
    · exact ⟨o, List.mem_cons_self o rest, h2⟩
    · obtain ⟨u, hu, hx⟩ := ih h2
      exact ⟨u, List.mem_cons_of_mem o hu, hx⟩

theorem gazTail_ne_nil {cs cap r : List Char} (h : gazTail cs = some (cap, r)) :
    cap ≠ [] := by
  unfold gazTail at h
  repeat' split at h
  all_goals first
    | exact Option.noConfusion h
    | (injection h with h1; rw [Prod.mk.injEq] at h1; rw [← h1.1]; simp)

theorem gazCapture_ne_nil {cs cap r : List Char}
    (h : gazCapture cs = some (cap, r)) : cap ≠ [] := by
  unfold gazCapture at h
  rcases Option.bind_eq_some.mp h with ⟨r1, _, h⟩
  rcases Option.bind_eq_some.mp h with ⟨r3, _, h⟩
  rcases Option.bind_eq_some.mp h with ⟨r5, _, h⟩
  rcases Option.bind_eq_some.mp h with ⟨r7, _, h⟩
  exact gazTail_ne_nil h

theorem verbClauseThen_ne_nil {verbs : List (List Char)} {cs cap r : List Char}
    (h : verbClauseThen verbs gazCapture cs = some (cap, r)) :
    cap ≠ [] := by
  unfold verbClauseThen at h
  rcases Option.bind_eq_some.mp h with ⟨r1, _, h⟩
  rcases Option.bind_eq_some.mp h with ⟨r2, _, h⟩
  rcases firstSome_eq_some h with ⟨o, ho, hx⟩
  rcases List.mem_map.mp ho with ⟨v, _, rfl⟩
  rcases Option.bind_eq_some.mp hx with ⟨r3, _, hx⟩
  exact gazCapture_ne_nil hx

theorem amendMatcher_ne_nil {kw : List Char} {verbs : List (List Char)}
    {clauseOpt : Bool} {cs cap r : List Char}
    (h : amendMatcher kw verbs clauseOpt cs = some (cap, r)) :
    cap ≠ [] := by
  unfold amendMatcher at h
  rcases Option.bind_eq_some.mp h with ⟨r1, _, h⟩
  rcases Option.bind_eq_some.mp h with ⟨r2, _, h⟩
  cases clauseOpt with
  | true =>
    rw [if_pos rfl] at h
    rcases orElse_eq_some h with h2 | ⟨_, h2⟩
    · exact verbClauseThen_ne_nil h2
    · exact gazCapture_ne_nil h2
  | false =>
    rw [if_neg (by simp)] at h
    exact verbClauseThen_ne_nil h

theorem scanA_cap_ne_nil {matcher : List Char → Option (List Char × List Char)}
    (hm : ∀ cs cap rem, matcher cs = some (cap, rem) → cap ≠ []) :
    ∀ (fuel : Nat) (cs : List Char) (idx : Nat) m, m ∈ scanA matcher fuel cs idx →
      m.cap ≠ [] := by
  intro fuel
  induction fuel with
  | zero => intro cs idx m hmem; exact absurd hmem (by simp [scanA])
  | succ n ih =>
    intro cs idx m hmem
    cases cs with
    | nil => exact absurd hmem (by simp [scanA])
    | cons c rest =>
      unfold scanA at hmem
      cases hmt : matcher (c :: rest) with
      | none =>
        rw [hmt] at hmem
        exact ih rest (idx + 1) m hmem
      | some pr =>
        obtain ⟨cap, rem⟩ := pr
        rw [hmt] at hmem
        simp only [List.mem_cons] at hmem
        rcases hmem with rfl | hmem
        · exact hm (c :: rest) cap rem hmt
        · exact ih rem _ m hmem

theorem isEmpty_false_of_ne_nil {l : List α} (h : l ≠ []) : l.isEmpty = false := by
  cases l with
  | nil => exact absurd rfl h
  | cons a t => rfl

theorem amendPass_type {content : String} {tyName : String} {ty : AmendType}
    {ms : List (ScanMatch (List Char))} :
    ∀ seen, ∀ e ∈ (amendPass content tyName ty ms seen).1, e.amendment_type = ty := by
  induction ms with
  | nil => intro seen e he; exact absurd he (by simp [amendPass])
  | cons m rest ih =>
    intro seen e he
    simp only [amendPass] at he
    split at he
    · exact ih _ e he
    · simp only [List.mem_cons] at he
      rcases he with rfl | he
      · rfl
      · exact ih _ e he

theorem amendPass_refSome {content : String} {tyName : String} {ty : AmendType}
    {ms : List (ScanMatch (List Char))} (hcap : ∀ m ∈ ms, m.cap ≠ []) :
    ∀ seen, ∀ e ∈ (amendPass content tyName ty ms seen).1,
      e.uradni_list_ref.isSome = true := by
  induction ms with
  | nil => intro seen e he; exact absurd he (by simp [amendPass])
  | cons m rest ih =>
    have hm : m.cap ≠ [] := hcap m (List.mem_cons_self m rest)
    have hrest : ∀ x ∈ rest, x.cap ≠ [] :=
      fun x hx => hcap x (List.mem_cons_of_mem m hx)
    intro seen e he
    simp only [amendPass] at he
    split at he
    · exact ih hrest _ e he
    · simp only [List.mem_cons] at he
      rcases he with rfl | he
      · simp [amendRef, isEmpty_false_of_ne_nil hm]
      · exact ih hrest _ e he

/-- C10: every amendment reference emitted by `extractAmendmentReferences`
carries a gazette reference: the trailing gazette group of each of the four
amendment patterns is mandatory, so the dedup fallback to the raw matched
text is never exercised. -/
theorem claim_C10 (content : String) :
    ∀ e ∈ extractAmendmentReferences content, e.uradni_list_ref.isSome = true := by
  intro e he
  have hs : ∀ cs cap rem, spremenjenMatcher cs = some (cap, rem) → cap ≠ [] :=
    fun _ _ _ h => amendMatcher_ne_nil h
  have hr : ∀ cs cap rem, razveljavljenMatcher cs = some (cap, rem) → cap ≠ [] :=
    fun _ _ _ h => amendMatcher_ne_nil h
  have hc : ∀ cs cap rem, crtanMatcher cs = some (cap, rem) → cap ≠ [] :=
    fun _ _ _ h => amendMatcher_ne_nil h
  have hd : ∀ cs cap rem, dodanMatcher cs = some (cap, rem) → cap ≠ [] :=
    fun _ _ _ h => amendMatcher_ne_nil h
  have capNe : ∀ (mt : List Char → Option (List Char × List Char)),
      (∀ cs cap rem, mt cs = some (cap, rem) → cap ≠ []) →
      ∀ m ∈ scanText mt content, m.cap ≠ [] :=
    fun mt hmt m hm => scanA_cap_ne_nil hmt _ _ _ m hm
  unfold extractAmendmentReferences at he
  simp only [List.mem_append] at he
  rcases he with ((he | he) | he) | he
  · exact amendPass_refSome (capNe _ hs) _ e he
  · exact amendPass_refSome (capNe _ hr) _ e he
  · exact amendPass_refSome (capNe _ hc) _ e he
  · exact amendPass_refSome (capNe _ hd) _ e he

theorem str_append_cancel_left {a b c : String} (h : a ++ b = a ++ c) : b = c := by
  have hd : a.data ++ b.data = a.data ++ c.data := by
    have h1 : (a ++ b).data = a.data ++ b.data := rfl
    have h2 : (a ++ c).data = a.data ++ c.data := rfl
    rw [← h1, ← h2, h]
  have hbc := List.append_cancel_left hd
  cases b
  cases c
  exact congrArg String.mk hbc

/-- Count of the entries with a given gazette reference emitted by one
dedup pass: one when some match cites it and its key is unseen, else zero. -/
theorem amendPass_countP (content tyName : String) (ty : AmendType) (R : String) :
    ∀ (ms : List (ScanMatch (List Char))) (seen : List String),
      (∀ m ∈ ms, m.cap ≠ []) →
      ((amendPass content tyName ty ms seen).1.countP
        (fun e => e.amendment_type == ty && e.uradni_list_ref == some R)) =
      if (tyName ++ "-" ++ R) ∈ seen then 0
      else if ∃ m ∈ ms, amendRef m = some R then 1 else 0 := by
  intro ms
  induction ms with
  | nil =>
    intro seen _
    simp [amendPass]
  | cons m rest ih =>
    intro seen hcap
    have hm : m.cap ≠ [] := hcap m (List.mem_cons_self m rest)
    have hrest : ∀ x ∈ rest, x.cap ≠ [] :=
      fun x hx => hcap x (List.mem_cons_of_mem m hx)
    have href : amendRef m = some ("RS, št. " ++ String.mk m.cap) := by
      simp [amendRef, isEmpty_false_of_ne_nil hm]
    simp only [amendPass]
    split
    · rename_i hcont
      have hkeymem : amendKey tyName m ∈ seen := List.elem_iff.mp hcont
      rw [ih seen hrest]
      by_cases hKR : (tyName ++ "-" ++ R) ∈ seen
      · rw [if_pos hKR, if_pos hKR]
      · have hne : amendRef m ≠ some R := by
          intro heq
          apply hKR
          have hk : amendKey tyName m = tyName ++ "-" ++ R := by
            simp [amendKey, heq]
          rw [← hk]
          exact hkeymem
        rw [if_neg hKR, if_neg hKR]
        have hiff : (∃ x ∈ m :: rest, amendRef x = some R) ↔
            (∃ x ∈ rest, amendRef x = some R) := by
          simp only [List.mem_cons, exists_eq_or_imp, hne, false_or]
        rw [if_congr hiff rfl rfl]
    · rename_i hcont
      rw [List.countP_cons]
      by_cases hr : amendRef m = some R
      · have hkey : amendKey tyName m = tyName ++ "-" ++ R := by
          simp [amendKey, hr]
        have hKRnotin : (tyName ++ "-" ++ R) ∉ seen := by
          rw [← hkey]
          intro hmem
          exact hcont (List.elem_iff.mpr hmem)
        rw [ih (amendKey tyName m :: seen) hrest]
        rw [if_pos (show (tyName ++ "-" ++ R) ∈ amendKey tyName m :: seen by
          rw [hkey]; exact List.mem_cons_self _ seen)]
        have hex : ∃ x ∈ m :: rest, amendRef x = some R :=
          ⟨m, List.mem_cons_self m rest, hr⟩
        rw [if_neg hKRnotin, if_pos hex]
        simp [hr]
      · have hkeyne : amendKey tyName m ≠ tyName ++ "-" ++ R := by
          intro heq
          apply hr
          rw [href]
          have h1 : tyName ++ ("-" ++ ("RS, št. " ++ String.mk m.cap)) =
              tyName ++ ("-" ++ R) := by
            have : (amendRef m).getD m.raw = "RS, št. " ++ String.mk m.cap := by
              rw [href]; rfl
            calc tyName ++ ("-" ++ ("RS, št. " ++ String.mk m.cap))
                = amendKey tyName m := by
                  simp only [amendKey, this, String.append_assoc]
              _ = tyName ++ "-" ++ R := heq
              _ = tyName ++ ("-" ++ R) := by rw [String.append_assoc]
          have h2 := str_append_cancel_left h1
          have h3 := str_append_cancel_left h2
          rw [h3]
        rw [ih (amendKey tyName m :: seen) hrest]
        have hbeq : (amendRef m == some R) = false := by simp [hr]
        have hmemiff : (tyName ++ "-" ++ R) ∈ amendKey tyName m :: seen ↔
            (tyName ++ "-" ++ R) ∈ seen := by
          simp only [List.mem_cons]
          constructor
          · rintro (heq | hmem)
            · exact absurd heq.symm hkeyne
            · exact hmem
          · exact Or.inr
        have hiff : (∃ x ∈ m :: rest, amendRef x = some R) ↔
            (∃ x ∈ rest, amendRef x = some R) := by
          simp only [List.mem_cons, exists_eq_or_imp, hr, false_or]
        rw [if_congr hmemiff rfl rfl, if_congr hiff rfl rfl]
        simp [hbeq]

/-- C9: the spremenjen pass deduplicates by gazette reference: whenever the
text contains at least one modified-annotation citing gazette reference `R`
(in particular when it contains two citing the same `R`), exactly one
spremenjen entry keyed by `R` is emitted; a further annotation citing a
distinct reference yields its own single entry by the same theorem applied
at that reference. -/
theorem claim_C9 (content R : String)
    (h : ∃ m ∈ scanText spremenjenMatcher content, amendRef m = some R) :
    (extractAmendmentReferences content).countP
      (fun e => e.amendment_type == AmendType.spremenjen &&
        e.uradni_list_ref == some R) = 1 := by
  have hcap : ∀ m ∈ scanText spremenjenMatcher content, m.cap ≠ [] :=
    fun m hm =>
      scanA_cap_ne_nil (fun _ _ _ hh => amendMatcher_ne_nil hh) _ _ _ m hm
  have hzero : ∀ (tyName : String) (ty : AmendType)
      (ms : List (ScanMatch (List Char))) (seen : List String),
      ty ≠ AmendType.spremenjen →
      ((amendPass content tyName ty ms seen).1.countP
        (fun e => e.amendment_type == AmendType.spremenjen &&
          e.uradni_list_ref == some R)) = 0 := by
    intro tyName ty ms seen hty
    rw [List.countP_eq_zero]
    intro e he
    have := amendPass_type _ e he
    simp [this, hty]
  unfold extractAmendmentReferences
  simp only [List.countP_append]
  rw [amendPass_countP content "spremenjen" AmendType.spremenjen R _ [] hcap]
  rw [if_neg (List.not_mem_nil _), if_pos h]
  rw [hzero "razveljavljen" AmendType.razveljavljen _ _ (by simp)]
  rw [hzero "črtan" AmendType.crtan _ _ (by simp)]
  rw [hzero "dodan" AmendType.dodan _ _ (by simp)]

/-- Witness for C9: a text with two modified-annotations citing the same
gazette number 63/13 yields exactly one spremenjen entry for it. -/
theorem claim_C9_witness :
    (∃ m ∈ scanText spremenjenMatcher
        "Spremenjen z zakonom, Ur. l. RS, št. 63/13 in spremenjen z zakonom, Ur. l. RS, št. 63/13",
      amendRef m = some "RS, št. 63/13") ∧
    (extractAmendmentReferences
        "Spremenjen z zakonom, Ur. l. RS, št. 63/13 in spremenjen z zakonom, Ur. l. RS, št. 63/13").countP
      (fun e => e.amendment_type == AmendType.spremenjen &&
        e.uradni_list_ref == some "RS, št. 63/13") = 1 :=
  ⟨by decide,
   claim_C9
     "Spremenjen z zakonom, Ur. l. RS, št. 63/13 in spremenjen z zakonom, Ur. l. RS, št. 63/13"
     "RS, št. 63/13" (by decide)⟩

/-- Witness for C10 at a concrete text and its emitted entry. -/
theorem claim_C10_witness :
    ({ uradni_list_ref := some "RS, št. 63/13", amendment_type := .spremenjen,
       position := .header,
       raw_text := "Spremenjen z zakonom, Ur. l. RS, št. 63/13" }
      : AmendmentReference).uradni_list_ref.isSome = true :=
  claim_C10 "Spremenjen z zakonom, Ur. l. RS, št. 63/13" _ (by decide)

/-! ## Infrastructure for the round-trip claim -/

theorem toList_append (x y : String) : (x ++ y).toList = x.toList ++ y.toList := by
  cases x
  cases y
  rfl

theorem mk_toList (s : String) : String.mk s.toList = s := by
  cases s
  rfl

theorem orElse_none_left (b : Unit → Option α) : Option.orElse none b = b () := rfl

theorem orElse_some_left (a : α) (b : Unit → Option α) :
    Option.orElse (some a) b = some a := rfl

theorem charLower_digit {c : Char} (hc : isDigitC c = true) : charLower c = c := by
  simp only [isDigitC, Bool.and_eq_true, decide_eq_true_eq] at hc
  unfold charLower
  rw [if_neg (by simp only [Bool.and_eq_true, decide_eq_true_eq, not_and]; omega),
    if_neg (by omega), if_neg (by omega), if_neg (by omega)]

theorem digit_ne_of_gt {c x : Char} (hc : isDigitC c = true)
    (hx : 57 < x.toNat) : c ≠ x := by
  intro he
  subst he
  simp only [isDigitC, Bool.and_eq_true, decide_eq_true_eq] at hc
  omega

theorem artLetter_not_digit {c : Char} (h : isArticleLetter c = true) :
    isDigitC c = false := by
  simp only [isArticleLetter, Bool.or_eq_true, Bool.and_eq_true,
    decide_eq_true_eq] at h
  rw [Bool.eq_false_iff]
  intro hd
  simp only [isDigitC, Bool.and_eq_true, decide_eq_true_eq] at hd
  rcases h with h | h <;> omega

theorem artLetter_ne_dot {c : Char} (h : isArticleLetter c = true) : c ≠ '.' := by
  intro he
  rw [he] at h
  exact absurd h (by decide)

theorem takeWhile_append_sat {p : Char → Bool} {ds : List Char}
    (h : ∀ c ∈ ds, p c = true) {c0 : Char} (hc : p c0 = false) (t : List Char) :
    (ds ++ c0 :: t).takeWhile p = ds ∧ (ds ++ c0 :: t).dropWhile p = c0 :: t := by
  induction ds with
  | nil => simp [List.takeWhile, List.dropWhile, hc]
  | cons d dt ih =>
    have hd := h d (List.mem_cons_self d dt)
    have hdt := ih (fun x hx => h x (List.mem_cons_of_mem d hx))
    constructor
    · rw [List.cons_append, List.takeWhile_cons_of_pos hd, hdt.1]
    · rw [List.cons_append, List.dropWhile_cons_of_pos hd, hdt.2]

theorem takeDigits1_concat {ds : List Char} (hne : ds ≠ [])
    (hdig : ∀ c ∈ ds, isDigitC c = true) {c0 : Char}
    (hc : isDigitC c0 = false) (t : List Char) :
    takeDigits1 (ds ++ c0 :: t) = some (ds, c0 :: t) := by
  obtain ⟨htw, hdw⟩ := takeWhile_append_sat hdig hc t
  unfold takeDigits1
  rw [htw, hdw, if_neg (by simp [hne])]

theorem takeDigits1_inv {cs ds r : List Char}
    (h : takeDigits1 cs = some (ds, r)) :
    ds ≠ [] ∧ ∀ c ∈ ds, isDigitC c = true := by
  simp only [takeDigits1] at h
  split at h
  · exact Option.noConfusion h
  · rename_i hne
    injection h with h1
    rw [Prod.mk.injEq] at h1
    constructor
    · rw [← h1.1]
      intro hnil
      rw [hnil] at hne
      exact hne rfl
    · intro c hc
      rw [← h1.1] at hc
      exact List.mem_takeWhile_imp hc

theorem mem_of_head? {l : List α} {a : α} (h : l.head? = some a) : a ∈ l := by
  cases l with
  | nil => exact Option.noConfusion h
  | cons x t =>
    injection h with h1
    rw [h1]
    exact List.mem_cons_self a t

theorem mem_of_getLast? {l : List α} {a : α} (h : l.getLast? = some a) : a ∈ l := by
  induction l with
  | nil => exact Option.noConfusion h
  | cons x t ih =>
    cases t with
    | nil =>
      injection h with h1
      rw [← h1]
      exact List.mem_cons_self x []
    | cons y u =>
      rw [List.getLast?_cons_cons] at h
      exact List.mem_cons_of_mem x (ih h)

theorem getLast?_append_ne {l1 l2 : List α} (h : l2 ≠ []) :
    (l1 ++ l2).getLast? = l2.getLast? := by
  induction l1 with
  | nil => rfl
  | cons a t ih =>
    cases ht : t ++ l2 with
    | nil => exact absurd (List.append_eq_nil.mp ht).2 h
    | cons b bs =>
      have : (a :: t ++ l2) = a :: b :: bs := by rw [List.cons_append, ht]
      rw [this, List.getLast?_cons_cons, ← ht, ih]

theorem codeKeys_ne_nil : ∀ kk ∈ codeKeys, kk.toList ≠ [] := by decide

theorem codeKeys_no_ws : ∀ kk ∈ codeKeys, ∀ ch ∈ kk.toList, isWsC ch = false := by
  decide

theorem toList_mk (l : List Char) : (String.mk l).toList = l := rfl

theorem dotThen_ne {c : Char} (h : c ≠ '.') (t : List Char) :
    dotThen (c :: t) = none := by
  unfold dotThen
  split
  · rename_i heq
    injection heq with h1 _
    exact absurd h1 h
  · rfl

theorem matchLit_digit_fail {c : Char} (hc : isDigitC c = true) {p : Char}
    (hp : 57 < p.toNat) (ps t : List Char) : matchLit (p :: ps) (c :: t) = none := by
  simp only [matchLit]
  rw [charLower_digit hc, if_neg (digit_ne_of_gt hc hp)]

theorem ecliTest_digit {c : Char} (hc : isDigitC c = true) (t : List Char) :
    ecliTest (c :: t) = false := by
  have h1 : matchLitCS "ECLI:SI:".toList (c :: t) = none := by
    rw [show ("ECLI:SI:".toList : List Char) = 'E' :: "CLI:SI:".toList from rfl]
    simp only [matchLitCS]
    rw [if_neg (digit_ne_of_gt hc (by decide))]
  unfold ecliTest
  rw [h1]

theorem ulMatcher_digit {c : Char} (hc : isDigitC c = true) (t : List Char) :
    ulMatcher (c :: t) = none := by
  have hA : matchLit "uradni".toList (c :: t) = none := by
    rw [show ("uradni".toList : List Char) = 'u' :: "radni".toList from rfl]
    exact matchLit_digit_fail hc (by decide) _ _
  have hB : matchLit "ur".toList (c :: t) = none := by
    rw [show ("ur".toList : List Char) = 'u' :: "r".toList from rfl]
    exact matchLit_digit_fail hc (by decide) _ _
  have hh : ulHead (c :: t) = none := by
    unfold ulHead
    rw [hA, hB]
    rfl
  unfold ulMatcher
  rw [hh]
  rfl

theorem headIn2_digit {c : Char} (hc : isDigitC c = true) {c1 c2 : Char}
    (h1 : 57 < c1.toNat) (h2 : 57 < c2.toNat) (t : List Char) :
    headIn2 c1 c2 (c :: t) = none := by
  simp only [headIn2]
  rw [if_neg (by
    simp only [Bool.or_eq_true, decide_eq_true_eq]
    rintro (he | he)
    · exact digit_ne_of_gt hc h1 he
    · exact digit_ne_of_gt hc h2 he)]

theorem dirMatcher_digit {c : Char} (hc : isDigitC c = true) (t : List Char) :
    dirMatcher (c :: t) = none := by
  unfold dirMatcher
  rw [headIn2_digit hc (by decide) (by decide)]
  rfl

theorem regMatcher_digit {c : Char} (hc : isDigitC c = true) (t : List Char) :
    regMatcher (c :: t) = none := by
  unfold regMatcher
  rw [headIn2_digit hc (by decide) (by decide)]
  rfl

theorem short_toList (l : List Char) (s : String) :
    (String.mk l ++ ". člen " ++ s).toList
      = l ++ ('.' :: ' ' :: 'č' :: 'l' :: 'e' :: 'n' :: ' ' :: s.toList) := by
  rw [toList_append, toList_append, List.append_assoc]
  rfl

theorem statCore_clen {art : List Char} {k : String} (hk : k ∈ codeKeys) :
    statCore art (' ' :: 'č' :: 'l' :: 'e' :: 'n' :: ' ' :: k.toList)
      = some (String.mk art, String.mk k.toList) := by
  have hdw : List.dropWhile isWsC k.toList = k.toList :=
    dropWhile_of_head (fun c hcc => codeKeys_no_ws k hk c (mem_of_head? hcc))
  have hany : codeKeys.any (fun kk => ciEqL k.toList kk.toList) = true :=
    List.any_eq_true.mpr ⟨k, hk, by unfold ciEqL; exact beq_self_eq_true _⟩
  rw [show statCore art (' ' :: 'č' :: 'l' :: 'e' :: 'n' :: ' ' :: k.toList)
      = Option.orElse
          (if codeKeys.any
              (fun kk => ciEqL (List.dropWhile isWsC k.toList) kk.toList) = true
           then some (String.mk art, String.mk (List.dropWhile isWsC k.toList))
           else none)
          (fun _ => none) from rfl]
  rw [hdw, if_pos hany]
  rfl

theorem statRest_dot {art : List Char} {k : String} (hk : k ∈ codeKeys) :
    statRest art ('.' :: ' ' :: 'č' :: 'l' :: 'e' :: 'n' :: ' ' :: k.toList)
      = some (String.mk art, String.mk k.toList) := by
  unfold statRest
  rw [show dotThen ('.' :: ' ' :: 'č' :: 'l' :: 'e' :: 'n' :: ' ' :: k.toList)
      = some (' ' :: 'č' :: 'l' :: 'e' :: 'n' :: ' ' :: k.toList) from rfl]
  rw [show (some (' ' :: 'č' :: 'l' :: 'e' :: 'n' :: ' ' :: k.toList)).bind
      (fun t => statCore art t) = statCore art
        (' ' :: 'č' :: 'l' :: 'e' :: 'n' :: ' ' :: k.toList) from rfl]
  rw [statCore_clen hk]
  rfl

/-- Parsing the short-formatted statute citation
`<article>. člen <code>` recovers the article and the code. -/
theorem parse_short_format (da lo : List Char) (k : String)
    (hda : da ≠ []) (hdig : ∀ c ∈ da, isDigitC c = true)
    (hlo : lo = [] ∨ ∃ ℓ, lo = [ℓ] ∧ isArticleLetter ℓ = true)
    (hkey : k ∈ codeKeys) :
    parseCitation (String.mk (da ++ lo) ++ ". člen " ++ k) =
      { raw := String.mk (da ++ lo) ++ ". člen " ++ k, type := .statute,
        document_id := (pisLookup k).getD (lowerStr k),
        article := some (String.mk (da ++ lo)), paragraph := none,
        code_abbreviation := some k, valid := true } := by
  have hkl : k.toList ≠ [] := codeKeys_ne_nil k hkey
  have hlast : ∀ l1 : List Char,
      (l1 ++ ('.' :: ' ' :: 'č' :: 'l' :: 'e' :: 'n' :: ' ' :: k.toList)).getLast?
        = k.toList.getLast? := by
    intro l1
    rw [show ((l1 ++ ('.' :: ' ' :: 'č' :: 'l' :: 'e' :: 'n' :: ' ' :: k.toList))
        : List Char) = l1 ++ (['.', ' ', 'č', 'l', 'e', 'n', ' '] ++ k.toList)
        from rfl]
    rw [getLast?_append_ne (by simp [hkl]), getLast?_append_ne hkl]
  rcases hlo with rfl | ⟨ℓ, rfl, hℓ⟩
  · rw [List.append_nil]
    obtain ⟨d0, da', rfl⟩ : ∃ d0 da', da = d0 :: da' := by
      cases da with
      | nil => exact absurd rfl hda
      | cons a b => exact ⟨a, b, rfl⟩
    have hd0 : isDigitC d0 = true := hdig d0 (List.mem_cons_self _ _)
    have hcs := short_toList (d0 :: da') k
    have htrim : jsTrimL ((d0 :: da') ++
        ('.' :: ' ' :: 'č' :: 'l' :: 'e' :: 'n' :: ' ' :: k.toList))
        = (d0 :: da') ++ ('.' :: ' ' :: 'č' :: 'l' :: 'e' :: 'n' :: ' ' :: k.toList) := by
      apply jsTrimL_of_ends
      · intro c hcq
        injection hcq with h1
        rw [← h1]
        exact digit_not_ws hd0
      · intro c hcq
        rw [hlast] at hcq
        exact codeKeys_no_ws k hkey c (mem_of_getLast? hcq)
    have hjs : jsTrim (String.mk (d0 :: da') ++ ". člen " ++ k)
        = String.mk ((d0 :: da') ++
            ('.' :: ' ' :: 'č' :: 'l' :: 'e' :: 'n' :: ' ' :: k.toList)) := by
      unfold jsTrim
      rw [hcs, htrim]
    have he : ecliTest ((d0 :: da') ++
        ('.' :: ' ' :: 'č' :: 'l' :: 'e' :: 'n' :: ' ' :: k.toList)) = false :=
      ecliTest_digit hd0 _
    have hul : ulMatcher ((d0 :: da') ++
        ('.' :: ' ' :: 'č' :: 'l' :: 'e' :: 'n' :: ' ' :: k.toList)) = none :=
      ulMatcher_digit hd0 _
    have hdir : dirMatcher ((d0 :: da') ++
        ('.' :: ' ' :: 'č' :: 'l' :: 'e' :: 'n' :: ' ' :: k.toList)) = none :=
      dirMatcher_digit hd0 _
    have hreg : regMatcher ((d0 :: da') ++
        ('.' :: ' ' :: 'č' :: 'l' :: 'e' :: 'n' :: ' ' :: k.toList)) = none :=
      regMatcher_digit hd0 _
    have htd : takeDigits1 ((d0 :: da') ++
        ('.' :: ' ' :: 'č' :: 'l' :: 'e' :: 'n' :: ' ' :: k.toList))
        = some (d0 :: da', '.' :: ' ' :: 'č' :: 'l' :: 'e' :: 'n' :: ' ' :: k.toList) :=
      takeDigits1_concat hda hdig (by decide) _
    have hac : statArtCode ((d0 :: da') ++
        ('.' :: ' ' :: 'č' :: 'l' :: 'e' :: 'n' :: ' ' :: k.toList))
        = some (String.mk (d0 :: da'), String.mk k.toList) := by
      unfold statArtCode
      rw [htd]
      show statRest (d0 :: da')
        ('.' :: ' ' :: 'č' :: 'l' :: 'e' :: 'n' :: ' ' :: k.toList) = _
      exact statRest_dot hkey
    have hsm : statuteMatch ((d0 :: da') ++
        ('.' :: ' ' :: 'č' :: 'l' :: 'e' :: 'n' :: ' ' :: k.toList))
        = some (none, String.mk (d0 :: da'), String.mk k.toList) := by
      unfold statuteMatch
      rw [htd]
      show (statArtCode ((d0 :: da') ++
          ('.' :: ' ' :: 'č' :: 'l' :: 'e' :: 'n' :: ' ' :: k.toList))).map
        (fun ac => (none, ac.1, ac.2)) = _
      rw [hac]
      rfl
    simp only [parseCitation]
    rw [hjs, toList_mk, he, hul, hdir, hreg, hsm]
    rfl
  · obtain ⟨d0, da', rfl⟩ : ∃ d0 da', da = d0 :: da' := by
      cases da with
      | nil => exact absurd rfl hda
      | cons a b => exact ⟨a, b, rfl⟩
    have hd0 : isDigitC d0 = true := hdig d0 (List.mem_cons_self _ _)
    have hcs : (String.mk ((d0 :: da') ++ [ℓ]) ++ ". člen " ++ k).toList
        = (d0 :: da') ++
          (ℓ :: '.' :: ' ' :: 'č' :: 'l' :: 'e' :: 'n' :: ' ' :: k.toList) := by
      rw [short_toList, List.append_assoc]
      rfl
    have htrim : jsTrimL ((d0 :: da') ++
        (ℓ :: '.' :: ' ' :: 'č' :: 'l' :: 'e' :: 'n' :: ' ' :: k.toList))
        = (d0 :: da') ++
          (ℓ :: '.' :: ' ' :: 'č' :: 'l' :: 'e' :: 'n' :: ' ' :: k.toList) := by
      apply jsTrimL_of_ends
      · intro c hcq
        injection hcq with h1
        rw [← h1]
        exact digit_not_ws hd0
      · intro c hcq
        rw [show (((d0 :: da') ++
            (ℓ :: '.' :: ' ' :: 'č' :: 'l' :: 'e' :: 'n' :: ' ' :: k.toList))
            : List Char) = ((d0 :: da') ++ [ℓ]) ++
            ('.' :: ' ' :: 'č' :: 'l' :: 'e' :: 'n' :: ' ' :: k.toList) from by
          rw [List.append_assoc]; rfl] at hcq
        rw [hlast] at hcq
        exact codeKeys_no_ws k hkey c (mem_of_getLast? hcq)
    have hjs : jsTrim (String.mk ((d0 :: da') ++ [ℓ]) ++ ". člen " ++ k)
        = String.mk ((d0 :: da') ++
            (ℓ :: '.' :: ' ' :: 'č' :: 'l' :: 'e' :: 'n' :: ' ' :: k.toList)) := by
      unfold jsTrim
      rw [hcs, htrim]
    have he : ecliTest ((d0 :: da') ++
        (ℓ :: '.' :: ' ' :: 'č' :: 'l' :: 'e' :: 'n' :: ' ' :: k.toList)) = false :=
      ecliTest_digit hd0 _
    have hul : ulMatcher ((d0 :: da') ++
        (ℓ :: '.' :: ' ' :: 'č' :: 'l' :: 'e' :: 'n' :: ' ' :: k.toList)) = none :=
      ulMatcher_digit hd0 _
    have hdir : dirMatcher ((d0 :: da') ++
        (ℓ :: '.' :: ' ' :: 'č' :: 'l' :: 'e' :: 'n' :: ' ' :: k.toList)) = none :=
      dirMatcher_digit hd0 _
    have hreg : regMatcher ((d0 :: da') ++
        (ℓ :: '.' :: ' ' :: 'č' :: 'l' :: 'e' :: 'n' :: ' ' :: k.toList)) = none :=
      regMatcher_digit hd0 _
    have htd : takeDigits1 ((d0 :: da') ++
        (ℓ :: '.' :: ' ' :: 'č' :: 'l' :: 'e' :: 'n' :: ' ' :: k.toList))
        = some (d0 :: da',
            ℓ :: '.' :: ' ' :: 'č' :: 'l' :: 'e' :: 'n' :: ' ' :: k.toList) :=
      takeDigits1_concat hda hdig (artLetter_not_digit hℓ) _
    have hac : statArtCode ((d0 :: da') ++
        (ℓ :: '.' :: ' ' :: 'č' :: 'l' :: 'e' :: 'n' :: ' ' :: k.toList))
        = some (String.mk ((d0 :: da') ++ [ℓ]), String.mk k.toList) := by
      unfold statArtCode
      rw [htd]
      simp only [Option.some_bind]
      rw [show artOptLetter (d0 :: da')
          (ℓ :: '.' :: ' ' :: 'č' :: 'l' :: 'e' :: 'n' :: ' ' :: k.toList)
          statRest
          = (if isArticleLetter ℓ = true then
              statRest ((d0 :: da') ++ [ℓ])
                ('.' :: ' ' :: 'č' :: 'l' :: 'e' :: 'n' :: ' ' :: k.toList)
            else none) from rfl]
      rw [if_pos hℓ, statRest_dot hkey]
      rfl
    have hsm : statuteMatch ((d0 :: da') ++
        (ℓ :: '.' :: ' ' :: 'č' :: 'l' :: 'e' :: 'n' :: ' ' :: k.toList))
        = some (none, String.mk ((d0 :: da') ++ [ℓ]), String.mk k.toList) := by
      unfold statuteMatch
      rw [htd]
      simp only [Option.some_bind]
      rw [dotThen_ne (artLetter_ne_dot hℓ)]
      show (statArtCode ((d0 :: da') ++
          (ℓ :: '.' :: ' ' :: 'č' :: 'l' :: 'e' :: 'n' :: ' ' :: k.toList))).map
        (fun ac => (none, ac.1, ac.2)) = _
      rw [hac]
      rfl
    simp only [parseCitation]
    rw [hjs, toList_mk, he, hul, hdir, hreg, hsm]
    rfl

/-- Shape of an article capture: a non-empty digit run with an optional
trailing `[a-ž]` letter. -/
def ArtShape (a : String) : Prop :=
  ∃ da lo, a = String.mk (da ++ lo) ∧ da ≠ [] ∧
    (∀ ch ∈ da, isDigitC ch = true) ∧
    (lo = [] ∨ ∃ ℓ, lo = [ℓ] ∧ isArticleLetter ℓ = true)

theorem statCore_art {art r : List Char} {s1 s2 : String}
    (h : statCore art r = some (s1, s2)) : s1 = String.mk art := by
  unfold statCore at h
  rcases firstSome_eq_some h with ⟨o, ho, hx⟩
  rcases List.mem_map.mp ho with ⟨lit, _, rfl⟩
  rcases Option.bind_eq_some.mp hx with ⟨r2, _, hx⟩
  rcases Option.bind_eq_some.mp hx with ⟨r3, _, hx⟩
  split at hx
  · injection hx with h1
    rw [Prod.mk.injEq] at h1
    exact h1.1.symm
  · exact Option.noConfusion hx

theorem statRest_art {art cs : List Char} {s1 s2 : String}
    (h : statRest art cs = some (s1, s2)) : s1 = String.mk art := by
  unfold statRest at h
  rcases orElse_eq_some h with h1 | ⟨_, h1⟩
  · rcases Option.bind_eq_some.mp h1 with ⟨t, _, h2⟩
    exact statCore_art h2
  · exact statCore_art h1

theorem artOptLetter_inv {ds r : List Char} {β : Type}
    {cont : List Char → List Char → Option β} {b : β}
    (h : artOptLetter ds r cont = some b) :
    ∃ c t, r = c :: t ∧ isArticleLetter c = true ∧ cont (ds ++ [c]) t = some b := by
  unfold artOptLetter at h
  split at h
  · rename_i c2 t2
    split at h
    · rename_i hl
      exact ⟨c2, t2, rfl, hl, h⟩
    · exact Option.noConfusion h
  · exact Option.noConfusion h

theorem statArtCode_inv {cs : List Char} {a k0 : String}
    (h : statArtCode cs = some (a, k0)) : ArtShape a := by
  unfold statArtCode at h
  rcases Option.bind_eq_some.mp h with ⟨dr, hdr, h⟩
  obtain ⟨ds, r⟩ := dr
  obtain ⟨hne, hdig⟩ := takeDigits1_inv hdr
  rcases orElse_eq_some h with h1 | ⟨_, h1⟩
  · obtain ⟨c, t, rfl, hletter, h2⟩ := artOptLetter_inv h1
    exact ⟨ds, [c], statRest_art h2, hne, hdig, Or.inr ⟨c, rfl, hletter⟩⟩
  · exact ⟨ds, [], by rw [List.append_nil]; exact statRest_art h1,
      hne, hdig, Or.inl rfl⟩

theorem statuteMatch_inv {cs : List Char} {p : Option String} {a k0 : String}
    (h : statuteMatch cs = some (p, a, k0)) : ArtShape a := by
  unfold statuteMatch at h
  rcases orElse_eq_some h with h1 | ⟨_, h1⟩
  · rcases Option.bind_eq_some.mp h1 with ⟨pr, _, h1⟩
    rcases Option.bind_eq_some.mp h1 with ⟨r2, _, h1⟩
    rcases Option.bind_eq_some.mp h1 with ⟨r3, _, h1⟩
    rcases Option.bind_eq_some.mp h1 with ⟨r4, _, h1⟩
    rcases Option.map_eq_some'.mp h1 with ⟨ac, hac, heq⟩
    obtain ⟨ac1, ac2⟩ := ac
    rw [Prod.mk.injEq, Prod.mk.injEq] at heq
    have h2 : ac1 = a := heq.2.1
    exact h2 ▸ statArtCode_inv hac
  · rcases Option.map_eq_some'.mp h1 with ⟨ac, hac, heq⟩
    obtain ⟨ac1, ac2⟩ := ac
    rw [Prod.mk.injEq, Prod.mk.injEq] at heq
    have h2 : ac1 = a := heq.2.1
    exact h2 ▸ statArtCode_inv hac

theorem altCore_art {art r : List Char} {s1 : String} {p : Option String}
    (h : altCore art r = some (s1, p)) : s1 = String.mk art := by
  unfold altCore at h
  rcases firstSome_eq_some h with ⟨o, ho, hx⟩
  rcases List.mem_map.mp ho with ⟨lit, _, rfl⟩
  rcases Option.bind_eq_some.mp hx with ⟨r2, _, hx⟩
  rcases firstSome_eq_some hx with ⟨o2, ho2, hx2⟩
  simp only [List.mem_cons, List.not_mem_nil, or_false] at ho2
  rcases ho2 with rfl | rfl
  · rcases Option.bind_eq_some.mp hx2 with ⟨r3, _, hx2⟩
    rcases Option.bind_eq_some.mp hx2 with ⟨pr, _, hx2⟩
    rcases Option.bind_eq_some.mp hx2 with ⟨r4, _, hx2⟩
    rcases Option.bind_eq_some.mp hx2 with ⟨r5, _, hx2⟩
    split at hx2
    · injection hx2 with h1
      rw [Prod.mk.injEq] at h1
      exact h1.1.symm
    · exact Option.noConfusion hx2
  · split at hx2
    · injection hx2 with h1
      rw [Prod.mk.injEq] at h1
      exact h1.1.symm
    · exact Option.noConfusion hx2

theorem altRest_art {art cs : List Char} {s1 : String} {p : Option String}
    (h : altRest art cs = some (s1, p)) : s1 = String.mk art := by
  unfold altRest at h
  rcases orElse_eq_some h with h1 | ⟨_, h1⟩
  · rcases Option.bind_eq_some.mp h1 with ⟨t, _, h2⟩
    exact altCore_art h2
  · exact altCore_art h1

theorem altTail_inv {cs : List Char} {s1 : String} {p : Option String}
    (h : altTail cs = some (s1, p)) : ArtShape s1 := by
  unfold altTail at h
  rcases Option.bind_eq_some.mp h with ⟨r1, _, h⟩
  rcases Option.bind_eq_some.mp h with ⟨dr, hdr, h⟩
  obtain ⟨ds, r⟩ := dr
  obtain ⟨hne, hdig⟩ := takeDigits1_inv hdr
  rcases orElse_eq_some h with h1 | ⟨_, h1⟩
  · obtain ⟨c, t, rfl, hletter, h2⟩ := artOptLetter_inv h1
    exact ⟨ds, [c], altRest_art h2, hne, hdig, Or.inr ⟨c, rfl, hletter⟩⟩
  · exact ⟨ds, [], by rw [List.append_nil]; exact altRest_art h1,
      hne, hdig, Or.inl rfl⟩

theorem altFind_inv : ∀ {ks : List String} {cs : List Char}
    {k0 a : String} {p : Option String},
    altFind ks cs = some (k0, a, p) → ArtShape a := by
  intro ks
  induction ks with
  | nil => intro cs k0 a p h; exact Option.noConfusion h
  | cons kk ks ih =>
    intro cs k0 a p h
    unfold altFind at h
    cases hm : (matchLit (lowerStr kk).toList cs).bind altTail with
    | some ap =>
      rw [hm] at h
      obtain ⟨ap1, ap2⟩ := ap
      injection h with h1
      rw [Prod.mk.injEq] at h1
      obtain ⟨h1a, h1b⟩ := h1
      rw [Prod.mk.injEq] at h1b
      rcases Option.bind_eq_some.mp hm with ⟨rr, _, hm2⟩
      have h2 : ap1 = a := h1b.1
      exact h2 ▸ altTail_inv hm2
    | none =>
      rw [hm] at h
      exact ih h

theorem str_append_empty (s : String) : s ++ "" = s := by
  cases s with
  | mk l =>
    show String.mk (l ++ []) = String.mk l
    rw [List.append_nil]

/-- Inversion of the `parseCitation` cascade: a valid statute parse carrying a
code abbreviation comes from `STATUTE_PATTERN` or `ALT_STATUTE_PATTERN`, so the
whole record is determined by the code and an article capture of `ArtShape`. -/
theorem parseCitation_statute_inv {c k : String}
    (hv : (parseCitation c).valid = true)
    (ht : (parseCitation c).type = CitationType.statute)
    (hk : (parseCitation c).code_abbreviation = some k) :
    ∃ a p, parseCitation c =
      { raw := c, type := .statute,
        document_id := (pisLookup k).getD (lowerStr k),
        article := some a, paragraph := p,
        code_abbreviation := some k, valid := true } ∧ ArtShape a := by
  cases hemp : (jsTrim c).toList.isEmpty with
  | true =>
    have hpc : parseCitation c =
        { raw := c, type := .statute, document_id := "", valid := false,
          error := some "Empty citation" } := by
      simp only [parseCitation]
      rw [hemp]
      rfl
    rw [hpc] at hv
    exact Bool.noConfusion hv
  | false =>
    cases hec : ecliTest (jsTrim c).toList with
    | true =>
      have hpc : parseCitation c =
          { raw := c, type := .case_law, document_id := jsTrim c,
            ecli := some (jsTrim c), valid := true } := by
        simp only [parseCitation]
        rw [hemp, hec]
        rfl
      rw [hpc] at ht
      exact CitationType.noConfusion ht
    | false =>
      cases hul : ulMatcher (jsTrim c).toList with
      | some capL =>
        have hpc : parseCitation c =
            { raw := c, type := .statute,
              document_id := "UL-" ++ String.mk capL,
              uradni_list_ref := some (String.mk capL), valid := true } := by
          simp only [parseCitation]
          rw [hemp, hec, hul]
          rfl
        rw [hpc] at hk
        exact Option.noConfusion hk
      | none =>
        cases hdir : dirMatcher (jsTrim c).toList with
        | some yn =>
          have hpc : parseCitation c =
              { raw := c, type := .eu_directive,
                document_id := "directive:" ++ toString (natOfDigits yn.1)
                  ++ "/" ++ toString (natOfDigits yn.2),
                valid := true } := by
            simp only [parseCitation]
            rw [hemp, hec, hul, hdir]
            rfl
          rw [hpc] at ht
          exact CitationType.noConfusion ht
        | none =>
          cases hreg : regMatcher (jsTrim c).toList with
          | some yn =>
            have hpc : parseCitation c =
                { raw := c, type := .eu_regulation,
                  document_id := "regulation:" ++ toString (natOfDigits yn.1)
                    ++ "/" ++ toString (natOfDigits yn.2),
                  valid := true } := by
              simp only [parseCitation]
              rw [hemp, hec, hul, hdir, hreg]
              rfl
            rw [hpc] at ht
            exact CitationType.noConfusion ht
          | none =>
            cases hsm : statuteMatch (jsTrim c).toList with
            | some pac =>
              obtain ⟨p, a, k0⟩ := pac
              have hpc : parseCitation c =
                  { raw := c, type := .statute,
                    document_id := (pisLookup k0).getD (lowerStr k0),
                    article := some a, paragraph := p,
                    code_abbreviation := some k0, valid := true } := by
                simp only [parseCitation]
                rw [hemp, hec, hul, hdir, hreg, hsm]
                rfl
              rw [hpc] at hk
              have hk0 : k0 = k := by
                have h2 : some k0 = some k := hk
                injection h2
              subst hk0
              exact ⟨a, p, hpc, statuteMatch_inv hsm⟩
            | none =>
              cases ham : altMatch (jsTrim c).toList with
              | some kap =>
                obtain ⟨k0, a, p⟩ := kap
                have hpc : parseCitation c =
                    { raw := c, type := .statute,
                      document_id := (pisLookup k0).getD (lowerStr k0),
                      article := some a, paragraph := p,
                      code_abbreviation := some k0, valid := true } := by
                  simp only [parseCitation]
                  rw [hemp, hec, hul, hdir, hreg, hsm, ham]
                  rfl
                rw [hpc] at hk
                have hk0 : k0 = k := by
                  have h2 : some k0 = some k := hk
                  injection h2
                subst hk0
                have ham2 : altFind codeKeys (jsTrim c).toList
                    = some (k0, a, p) := ham
                exact ⟨a, p, hpc, altFind_inv ham2⟩
              | none =>
                have hpc : parseCitation c =
                    { raw := c, type := .statute, document_id := "",
                      valid := false,
                      error := some ("Unrecognized citation format: \""
                        ++ jsTrim c ++ "\"") } := by
                  simp only [parseCitation]
                  rw [hemp, hec, hul, hdir, hreg, hsm, ham]
                  rfl
                rw [hpc] at hv
                exact Bool.noConfusion hv

/-- `formatCitation` in short format on a paragraph-free statute parse renders
`<article>. člen <code>`. -/
theorem formatCitation_short {c k a : String}
    (hpc : parseCitation c =
      { raw := c, type := .statute,
        document_id := (pisLookup k).getD (lowerStr k),
        article := some a, paragraph := none,
        code_abbreviation := some k, valid := true }) :
    formatCitation c CitationFormat.short = a ++ ". člen " ++ k := by
  unfold formatCitation
  rw [hpc]
  show (a ++ ". člen " ++ k) ++ "" = a ++ ". člen " ++ k
  exact str_append_empty _

/-- Counterexample to C2 as stated: the citation "1. odstavek 6. člena KZ-1"
is a valid statute parse with known abbreviation KZ-1, but its short
rendering "6. člen KZ-1, 1. odstavek" is rejected by `parseCitation`, so the
round-trip fails for citations carrying a paragraph. -/
theorem claim_C2_cex :
    (parseCitation "1. odstavek 6. člena KZ-1").valid = true ∧
    (parseCitation "1. odstavek 6. člena KZ-1").type = CitationType.statute ∧
    (parseCitation "1. odstavek 6. člena KZ-1").code_abbreviation
      = some "KZ-1" ∧
    "KZ-1" ∈ codeKeys ∧
    formatCitation "1. odstavek 6. člena KZ-1" CitationFormat.short
      = "6. člen KZ-1, 1. odstavek" ∧
    (parseCitation
        (formatCitation "1. odstavek 6. člena KZ-1" CitationFormat.short)).valid
      = false :=
  ⟨rfl, rfl, rfl, by decide, rfl, rfl⟩

/-- C2 (corrected): for every citation that parses as a valid statute
reference with a known code abbreviation and NO paragraph, re-parsing the
short-formatted rendering is valid and preserves the document identifier and
the article.  (With a paragraph the rendering appends ", N. odstavek", which
no parser pattern accepts, so the unrestricted round-trip fails.) -/
theorem claim_C2 (c k : String)
    (hv : (parseCitation c).valid = true)
    (ht : (parseCitation c).type = CitationType.statute)
    (hk : (parseCitation c).code_abbreviation = some k)
    (hkey : k ∈ codeKeys)
    (hp : (parseCitation c).paragraph = none) :
    (parseCitation (formatCitation c CitationFormat.short)).valid = true ∧
    (parseCitation (formatCitation c CitationFormat.short)).document_id
      = (parseCitation c).document_id ∧
    (parseCitation (formatCitation c CitationFormat.short)).article
      = (parseCitation c).article := by
  obtain ⟨a, p, hpc, hshape⟩ := parseCitation_statute_inv hv ht hk
  have hp0 : p = none := by
    rw [hpc] at hp
    exact hp
  subst hp0
  obtain ⟨da, lo, ha, hda, hdig, hlo⟩ := hshape
  subst ha
  have hfmt : formatCitation c CitationFormat.short
      = String.mk (da ++ lo) ++ ". člen " ++ k := formatCitation_short hpc
  rw [hfmt, parse_short_format da lo k hda hdig hlo hkey, hpc]
  exact ⟨rfl, rfl, rfl⟩

/-- Witness for C2 at the citation "6. člen KZ-1". -/
theorem claim_C2_witness :
    ((parseCitation "6. člen KZ-1").valid = true ∧
     (parseCitation "6. člen KZ-1").type = CitationType.statute ∧
     (parseCitation "6. člen KZ-1").code_abbreviation = some "KZ-1" ∧
     "KZ-1" ∈ codeKeys ∧
     (parseCitation "6. člen KZ-1").paragraph = none) ∧
    ((parseCitation (formatCitation "6. člen KZ-1" CitationFormat.short)).valid
        = true ∧
     (parseCitation
        (formatCitation "6. člen KZ-1" CitationFormat.short)).document_id
        = (parseCitation "6. člen KZ-1").document_id ∧
     (parseCitation (formatCitation "6. člen KZ-1" CitationFormat.short)).article
        = (parseCitation "6. člen KZ-1").article) :=
  ⟨⟨rfl, rfl, rfl, by decide, rfl⟩,
   claim_C2 "6. člen KZ-1" "KZ-1" rfl rfl rfl (by decide) rfl⟩

end SlovLaw
